import Mathlib

/-!
Verification of the TDS_RadialMenu geometry/state engine
(`TDS_library/TDS_radialMenu/radialWidget.py` and the editor dialog
`TDS_buildRadialMenu_UI.py`).

Angles are embedded as rationals; Python's `%` on a positive modulus is
`mod360` below, and Python's `int(...)` truncation is `pytrunc`.  Ordered
Python dicts are embedded as association lists (`List (key × value)`) whose
keys are unique, matching dict-key uniqueness and insertion order.
-/

namespace TDSRadial

/-- Python `x % 360` on rationals (result always in `[0, 360)`). -/
def mod360 (x : ℚ) : ℚ := x - 360 * ⌊x / 360⌋

theorem mod360_nonneg (x : ℚ) : 0 ≤ mod360 x := by
  unfold mod360
  have h := Int.sub_one_lt_floor (x / 360)
  have h' : (⌊x / 360⌋ : ℚ) ≤ x / 360 := Int.floor_le _
  nlinarith [h']

theorem mod360_lt (x : ℚ) : mod360 x < 360 := by
  unfold mod360
  have h : x / 360 - 1 < (⌊x / 360⌋ : ℚ) := Int.sub_one_lt_floor (x / 360)
  nlinarith [h]

theorem mod360_eq_self {x : ℚ} (h0 : 0 ≤ x) (h1 : x < 360) : mod360 x = x := by
  unfold mod360
  have hfl : ⌊x / 360⌋ = 0 := by
    rw [Int.floor_eq_zero_iff]
    constructor
    · positivity
    · rw [div_lt_one (by norm_num : (0:ℚ) < 360)]; exact h1
  rw [hfl]
  push_cast
  ring

theorem mod360_add_int (x : ℚ) (k : ℤ) : mod360 (x + 360 * k) = mod360 x := by
  unfold mod360
  have h : (x + 360 * k) / 360 = x / 360 + k := by
    field_simp
    ring
  rw [h, Int.floor_add_int]
  push_cast
  ring

theorem mod360_congr {a b : ℚ} (k : ℤ) (h : a - b = 360 * k) : mod360 a = mod360 b := by
  have hab : a = b + 360 * k := by linarith
  rw [hab, mod360_add_int]

theorem self_sub_mod360 (x : ℚ) : x - mod360 x = 360 * ⌊x / 360⌋ := by
  unfold mod360; ring

theorem mod360_eq_iff {a b : ℚ} : mod360 a = mod360 b ↔ ∃ k : ℤ, a - b = 360 * k := by
  constructor
  · intro h
    refine ⟨⌊a / 360⌋ - ⌊b / 360⌋, ?_⟩
    have ha := self_sub_mod360 a
    have hb := self_sub_mod360 b
    push_cast
    nlinarith [ha, hb, h]
  · rintro ⟨k, hk⟩
    exact mod360_congr k hk

theorem mod360_neg_add {x : ℚ} (h0 : -360 ≤ x) (h1 : x < 0) : mod360 x = x + 360 := by
  have : mod360 x = mod360 (x + 360) := by
    refine mod360_congr (-1) ?_
    push_cast; ring
  rw [this]
  exact mod360_eq_self (by linarith) (by linarith)

theorem mod360_idem (x : ℚ) : mod360 (mod360 x) = mod360 x :=
  mod360_eq_self (mod360_nonneg x) (mod360_lt x)

/-- The half-open angular-window membership test used by both
`get_sector_from_angle` and `get_outer_sector_from_angle`: the window is
`[mn, mx)` with an explicit disjunction when it wraps the 0°/360° seam. -/
def inArc (mn mx angle : ℚ) : Bool :=
  if mn < mx then decide (mn ≤ angle ∧ angle < mx)
  else decide (mn ≤ angle ∨ angle < mx)

/-- Characterization of `inArc` for a window of width `step` starting at `mn`:
it holds exactly when the forward angular distance from `mn` to `angle` is
below `step`. -/
theorem inArc_iff {step mn angle : ℚ} (hmn0 : 0 ≤ mn) (hmn1 : mn < 360)
    (hs0 : 0 < step) (hs1 : step ≤ 360) (ha0 : 0 ≤ angle) (ha1 : angle < 360) :
    inArc mn (mod360 (mn + step)) angle = true ↔ mod360 (angle - mn) < step := by
  unfold inArc
  rcases lt_or_le (mn + step) 360 with h | h
  · have hmx : mod360 (mn + step) = mn + step :=
      mod360_eq_self (by linarith) (by linarith)
    rw [hmx, if_pos (by linarith)]
    rcases le_or_lt mn angle with hc | hc
    · have hu : mod360 (angle - mn) = angle - mn :=
        mod360_eq_self (by linarith) (by linarith)
      rw [hu]
      simp only [decide_eq_true_eq]
      constructor
      · rintro ⟨_, h2⟩; linarith
      · intro h2; exact ⟨hc, by linarith⟩
    · have hu : mod360 (angle - mn) = angle - mn + 360 :=
        mod360_neg_add (by linarith) (by linarith)
      rw [hu]
      simp only [decide_eq_true_eq]
      constructor
      · rintro ⟨h1, _⟩; linarith
      · intro h2; linarith
  · have hmx : mod360 (mn + step) = mn + step - 360 := by
      have : mod360 (mn + step) = mod360 (mn + step - 360) := by
        refine mod360_congr 1 ?_
        push_cast; ring
      rw [this]
      exact mod360_eq_self (by linarith) (by linarith)
    rw [hmx, if_neg (by push_neg; linarith)]
    rcases le_or_lt mn angle with hc | hc
    · have hu : mod360 (angle - mn) = angle - mn :=
        mod360_eq_self (by linarith) (by linarith)
      rw [hu]
      simp only [decide_eq_true_eq]
      constructor
      · intro _; linarith
      · intro _; exact Or.inl hc
    · have hu : mod360 (angle - mn) = angle - mn + 360 :=
        mod360_neg_add (by linarith) (by linarith)
      rw [hu]
      simp only [decide_eq_true_eq]
      constructor
      · rintro (h1 | h1) <;> linarith
      · intro h2; exact Or.inr (by linarith)

/-- Embeds `RadialMenuWidget.calculate_angles` (radialWidget.py:784-789):
`{label: (270 + i*360/N) % 360 for i, label in enumerate(order)}`,
with `{}` returned for an empty order. -/
def calculate_angles (order : List String) : List (String × ℚ) :=
  if order.isEmpty then []
  else
    order.enum.map (fun p => (p.2, mod360 (270 + p.1 * (360 / (order.length : ℚ)))))

/-- Embeds `RadialMenuWidget.get_sector_from_angle` (radialWidget.py:1287-1300):
iterate the angle table in order; each label owns the half-open window
`[(a - step/2) % 360, (a + step/2) % 360)` with `step = 360/len(table)`,
wrap handled by disjunction; first hit wins, `None` when the table is empty. -/
def get_sector_from_angle (inner_angles : List (String × ℚ)) (angle : ℚ) : Option String :=
  if inner_angles.isEmpty then none
  else
    (inner_angles.find? (fun p =>
      inArc (mod360 (p.2 - 360 / (inner_angles.length : ℚ) / 2))
            (mod360 (p.2 + 360 / (inner_angles.length : ℚ) / 2)) angle)).map Prod.fst

/-- Embeds `RadialMenuWidget.get_child_angles` (radialWidget.py:1302-1319):
`{}` when there is no active sector or no hovered children; otherwise pack
children at step `25 * child_angle_mult`, starting at
`(center - total_arc/2) % 360` where `center` is the active parent's angle
(the source indexes `self.inner_angles[self.active_sector]`, which only runs
with the active sector present in the table; the `getD 0` default is that
unreachable `KeyError` branch). -/
def get_child_angles (mult : ℚ) (inner_angles : List (String × ℚ))
    (active_sector : Option String) (child_labels : List String) : List (String × ℚ) :=
  match active_sector with
  | none => []
  | some a =>
    if child_labels.isEmpty then []
    else
      let step := 25 * mult
      let total_arc := step * (child_labels.length : ℚ)
      let center_angle := ((inner_angles.lookup a).getD 0)
      let start_angle := mod360 (center_angle - total_arc / 2)
      child_labels.enum.map (fun p => (p.2, mod360 (start_angle + p.1 * step)))

/-- Embeds `RadialMenuWidget.get_outer_sector_from_angle`
(radialWidget.py:1321-1337): recomputes the child angle table (the passed
cache argument is unused in the source) and returns the first child whose
window `[start, (start + step) % 360)` contains the angle, wrap handled by
disjunction. -/
def get_outer_sector_from_angle (mult : ℚ) (inner_angles : List (String × ℚ))
    (active_sector : Option String) (child_labels : List String) (angle : ℚ) :
    Option String :=
  let step := 25 * mult
  ((get_child_angles mult inner_angles active_sector child_labels).find? (fun p =>
    inArc p.2 (mod360 (p.2 + step)) angle)).map Prod.fst

theorem length_calculate_angles (order : List String) :
    (calculate_angles order).length = order.length := by
  unfold calculate_angles
  rcases order with _ | ⟨a, t⟩ <;> simp

theorem getD_calculate_angles (order : List String) (i : ℕ) (hi : i < order.length)
    (hne : ¬order.isEmpty = true) :
    (calculate_angles order).getD i ("", 0) =
      (order.getD i "", mod360 (270 + (i : ℚ) * (360 / (order.length : ℚ)))) := by
  have hT : i < (calculate_angles order).length := by
    rw [length_calculate_angles]
    exact hi
  rw [List.getD_eq_getElem _ _ hT, List.getD_eq_getElem _ _ hi]
  simp only [calculate_angles, if_neg hne]
  rw [List.getElem_map, List.getElem_enum]

theorem find?_eq_some_unique {α : Type} {l : List α} {p : α → Bool} {x : α}
    (hx : x ∈ l) (hpx : p x = true) (huniq : ∀ y ∈ l, p y = true → y = x) :
    l.find? p = some x := by
  induction l with
  | nil => cases hx
  | cons a t ih =>
    by_cases hpa : p a = true
    · rw [List.find?_cons_of_pos _ hpa]
      exact congrArg some (huniq a (List.mem_cons_self a t) hpa)
    · rw [List.find?_cons_of_neg _ (by simpa using hpa)]
      rcases List.mem_cons.mp hx with rfl | hxt
      · exact absurd hpx hpa
      · exact ih hxt (fun y hy hpy => huniq y (List.mem_cons_of_mem _ hy) hpy)

/-- Spec-side window membership: angle `a` falls in the half-open window of
width `step` around center `c`, `[c - step/2, c + step/2) mod 360`, stated as
the forward distance from the window start being below the width. -/
def inCenteredWindow (step c a : ℚ) : Prop := mod360 (a - (c - step / 2)) < step

/-- The `find?` predicate used by `get_sector_from_angle` on an entry with
stored angle `c`, rewritten to spec-side window membership. -/
theorem sector_pred_iff {step c angle : ℚ} (hs0 : 0 < step) (hs1 : step ≤ 360)
    (ha0 : 0 ≤ angle) (ha1 : angle < 360) :
    inArc (mod360 (c - step / 2)) (mod360 (c + step / 2)) angle = true ↔
      inCenteredWindow step c angle := by
  have hmx : mod360 (c + step / 2) = mod360 (mod360 (c - step / 2) + step) := by
    refine mod360_congr (⌊(c - step / 2) / 360⌋) ?_
    have := self_sub_mod360 (c - step / 2)
    linarith
  rw [hmx]
  have h := inArc_iff (mod360_nonneg (c - step / 2)) (mod360_lt (c - step / 2))
    hs0 hs1 ha0 ha1
  rw [h]
  unfold inCenteredWindow
  have harg : mod360 (angle - mod360 (c - step / 2)) = mod360 (angle - (c - step / 2)) := by
    refine mod360_congr (⌊(c - step / 2) / 360⌋) ?_
    have := self_sub_mod360 (c - step / 2)
    linarith
  rw [harg]

/-- At most one window of the `calculate_angles` layout contains a given
angle: window membership at indices `i` and `j` (both `< n`) forces `i = j`. -/
theorem window_index_unique {n i j : ℕ} (hi : i < n) (hj : j < n) {angle : ℚ}
    (hWi : inCenteredWindow (360 / (n : ℚ)) (270 + (i : ℚ) * (360 / (n : ℚ))) angle)
    (hWj : inCenteredWindow (360 / (n : ℚ)) (270 + (j : ℚ) * (360 / (n : ℚ))) angle) :
    i = j := by
  have hn : 1 ≤ n := Nat.one_le_iff_ne_zero.mpr (by rintro rfl; omega)
  set step : ℚ := 360 / (n : ℚ) with hstep
  have hnq : (1 : ℚ) ≤ (n : ℚ) := by exact_mod_cast hn
  have hs0 : 0 < step := by rw [hstep]; positivity
  have hns : (n : ℚ) * step = 360 := by
    rw [hstep]; field_simp
  unfold inCenteredWindow at hWi hWj
  set au := angle - (270 + (i : ℚ) * step - step / 2) with hau
  set av := angle - (270 + (j : ℚ) * step - step / 2) with hav
  have hu0 := mod360_nonneg au
  have hv0 := mod360_nonneg av
  have hu := self_sub_mod360 au
  have hv := self_sub_mod360 av
  set A := ⌊au / 360⌋ with hA
  set B := ⌊av / 360⌋ with hB
  have hkey : 360 * ((A : ℚ) - (B : ℚ)) = (au - av) - (mod360 au - mod360 av) := by
    linarith
  by_contra hne
  rcases Nat.lt_or_ge i j with hij | hij
  · -- au - av = (j - i) * step with 1 ≤ j - i ≤ n - 1
    have hm1 : (1 : ℚ) ≤ (j : ℚ) - (i : ℚ) := by
      have : (i : ℚ) + 1 ≤ (j : ℚ) := by exact_mod_cast hij
      linarith
    have hm2 : (j : ℚ) - (i : ℚ) ≤ (n : ℚ) - 1 := by
      have : (j : ℚ) + 1 ≤ (n : ℚ) := by exact_mod_cast hj
      linarith
    have hdiff : au - av = ((j : ℚ) - (i : ℚ)) * step := by
      rw [hau, hav]; ring
    have hstep_le : step ≤ ((j : ℚ) - (i : ℚ)) * step := by nlinarith
    have hstep_hi : ((j : ℚ) - (i : ℚ)) * step + step ≤ 360 := by nlinarith
    have hlow : (0 : ℚ) < 360 * ((A : ℚ) - (B : ℚ)) := by
      rw [hkey, hdiff]; linarith
    have hhigh : 360 * ((A : ℚ) - (B : ℚ)) < 360 := by
      rw [hkey, hdiff]; linarith
    have hl : (0 : ℤ) < A - B := by
      have : (0 : ℚ) < ((A - B : ℤ) : ℚ) := by push_cast; linarith
      exact_mod_cast this
    have hh : (A : ℤ) - B < 1 := by
      have : ((A - B : ℤ) : ℚ) < 1 := by push_cast; linarith
      exact_mod_cast this
    omega
  · have hij' : j < i := by omega
    have hm1 : (1 : ℚ) ≤ (i : ℚ) - (j : ℚ) := by
      have : (j : ℚ) + 1 ≤ (i : ℚ) := by exact_mod_cast hij'
      linarith
    have hm2 : (i : ℚ) - (j : ℚ) ≤ (n : ℚ) - 1 := by
      have : (i : ℚ) + 1 ≤ (n : ℚ) := by exact_mod_cast hi
      linarith
    have hdiff : au - av = -(((i : ℚ) - (j : ℚ)) * step) := by
      rw [hau, hav]; ring
    have hstep_le : step ≤ ((i : ℚ) - (j : ℚ)) * step := by nlinarith
    have hstep_hi : ((i : ℚ) - (j : ℚ)) * step + step ≤ 360 := by nlinarith
    have hlow : (0 : ℚ) < 360 * ((B : ℚ) - (A : ℚ)) := by
      have h2 : 360 * ((B : ℚ) - (A : ℚ)) = (mod360 au - mod360 av) - (au - av) := by
        linarith [hkey]
      rw [h2, hdiff]; linarith
    have hhigh : 360 * ((B : ℚ) - (A : ℚ)) < 360 := by
      have h2 : 360 * ((B : ℚ) - (A : ℚ)) = (mod360 au - mod360 av) - (au - av) := by
        linarith [hkey]
      rw [h2, hdiff]; linarith
    have hl : (0 : ℤ) < B - A := by
      have : (0 : ℚ) < ((B - A : ℤ) : ℚ) := by push_cast; linarith
      exact_mod_cast this
    have hh : (B : ℤ) - A < 1 := by
      have : ((B - A : ℤ) : ℚ) < 1 := by push_cast; linarith
      exact_mod_cast this
    omega

/-- Each layout cell's center angle lies in its own window. -/
theorem window_center_mem (n i : ℕ) (hn : 1 ≤ n) :
    inCenteredWindow (360 / (n : ℚ)) (270 + (i : ℚ) * (360 / (n : ℚ)))
      (mod360 (270 + (i : ℚ) * (360 / (n : ℚ)))) := by
  set step : ℚ := 360 / (n : ℚ) with hstep
  have hnq : (1 : ℚ) ≤ (n : ℚ) := by exact_mod_cast hn
  have hs0 : 0 < step := by rw [hstep]; positivity
  have hs1 : step ≤ 360 := by
    rw [hstep, div_le_iff₀ (by positivity)]
    nlinarith
  unfold inCenteredWindow
  set s := 270 + (i : ℚ) * step with hsdef
  have harg : mod360 (mod360 s - (s - step / 2)) = mod360 (step / 2) := by
    refine mod360_congr (-⌊s / 360⌋) ?_
    have := self_sub_mod360 s
    push_cast
    linarith
  rw [harg, mod360_eq_self (by linarith) (by linarith)]
  linarith

theorem inCenteredWindow_congr (step : ℚ) {c c' : ℚ} (a : ℚ) (k : ℤ)
    (h : c - c' = 360 * k) : inCenteredWindow step c a ↔ inCenteredWindow step c' a := by
  unfold inCenteredWindow
  have he : mod360 (a - (c - step / 2)) = mod360 (a - (c' - step / 2)) := by
    refine mod360_congr (-k) ?_
    push_cast
    linarith
  rw [he]

/-- The layout cell of a `calculate_angles` table: on inputs in `[0, 360)`,
`get_sector_from_angle` returns the i-th label exactly when the input lies in
the i-th centered window. -/
theorem get_sector_calculate_iff (order : List String) (hnd : order.Nodup)
    {angle : ℚ} (ha0 : 0 ≤ angle) (ha1 : angle < 360) (i : ℕ) (hi : i < order.length) :
    get_sector_from_angle (calculate_angles order) angle =
        some (order.getD i "") ↔
      inCenteredWindow (360 / (order.length : ℚ))
        (270 + (i : ℚ) * (360 / (order.length : ℚ))) angle := by
  have hn : 1 ≤ order.length := by omega
  have hnq : (1 : ℚ) ≤ (order.length : ℚ) := by exact_mod_cast hn
  have hs0 : 0 < (360 / (order.length : ℚ)) := by positivity
  have hs1 : (360 / (order.length : ℚ)) ≤ 360 := by
    rw [div_le_iff₀ (by positivity)]
    nlinarith
  have hne : ¬order.isEmpty = true := by
    simp only [List.isEmpty_iff]
    intro h
    have h0 : order.length = 0 := by rw [h]; rfl
    omega
  have hTne : ¬(calculate_angles order).isEmpty = true := by
    simp only [List.isEmpty_iff]
    intro h
    have h0 : (calculate_angles order).length = 0 := by rw [h]; rfl
    have h1 := length_calculate_angles order
    omega
  have hTlen : (calculate_angles order).length = order.length :=
    length_calculate_angles order
  have hTent : ∀ k, k < order.length → ∀ hk2 : k < (calculate_angles order).length,
      (calculate_angles order)[k] =
        (order.getD k "", mod360 (270 + (k : ℚ) * (360 / (order.length : ℚ)))) := by
    intro k hk hk2
    have h := getD_calculate_angles order k hk hne
    rw [List.getD_eq_getElem _ _ hk2] at h
    exact h
  have hpred : ∀ k, k < order.length → ∀ hk2 : k < (calculate_angles order).length,
      (((fun p => inArc (mod360 (p.2 - 360 / ((calculate_angles order).length : ℚ) / 2))
          (mod360 (p.2 + 360 / ((calculate_angles order).length : ℚ) / 2)) angle)
        ((calculate_angles order)[k]) = true) ↔
      inCenteredWindow (360 / (order.length : ℚ))
        (270 + (k : ℚ) * (360 / (order.length : ℚ))) angle) := by
    intro k hk hk2
    rw [hTent k hk hk2, hTlen]
    simp only
    rw [sector_pred_iff hs0 hs1 ha0 ha1]
    refine inCenteredWindow_congr _ angle
      (-⌊(270 + (k : ℚ) * (360 / (order.length : ℚ))) / 360⌋) ?_
    have := self_sub_mod360 (270 + (k : ℚ) * (360 / (order.length : ℚ)))
    push_cast
    linarith
  constructor
  · intro h
    unfold get_sector_from_angle at h
    rw [if_neg hTne] at h
    rcases Option.map_eq_some'.mp h with ⟨e, hfind, hfst⟩
    have hpe := List.find?_some hfind
    have hmem := List.mem_of_find?_eq_some hfind
    rcases List.getElem_of_mem hmem with ⟨k, hk, hek⟩
    have hk' : k < order.length := by rw [← hTlen]; exact hk
    have hWk : inCenteredWindow (360 / (order.length : ℚ))
        (270 + (k : ℚ) * (360 / (order.length : ℚ))) angle := by
      rw [← hpred k hk' hk]
      simpa [hek] using hpe
    have hfste : e.1 = order.getD k "" := by
      rw [← hek, hTent k hk' hk]
    have hgetk : order.getD k "" = order.getD i "" := by
      rw [← hfste, hfst]
    have hkeq : k = i := by
      apply hnd.getElem_inj_iff.mp
      rw [List.getD_eq_getElem _ _ hk', List.getD_eq_getElem _ _ hi] at hgetk
      exact hgetk
    rw [hkeq] at hWk
    exact hWk
  · intro hW
    unfold get_sector_from_angle
    rw [if_neg hTne]
    have hTi : i < (calculate_angles order).length := by
      rw [hTlen]
      exact hi
    have hfind : (calculate_angles order).find?
        (fun p => inArc (mod360 (p.2 - 360 / ((calculate_angles order).length : ℚ) / 2))
          (mod360 (p.2 + 360 / ((calculate_angles order).length : ℚ) / 2)) angle) =
        some ((calculate_angles order)[i]) := by
      apply find?_eq_some_unique
      · exact List.getElem_mem hTi
      · rw [hpred i hi hTi]
        exact hW
      · intro y hy hpy
        rcases List.getElem_of_mem hy with ⟨k, hk, hek⟩
        have hk' : k < order.length := by rw [← hTlen]; exact hk
        have hWk : inCenteredWindow (360 / (order.length : ℚ))
            (270 + (k : ℚ) * (360 / (order.length : ℚ))) angle := by
          rw [← hpred k hk' hk]
          simpa [hek] using hpy
        have hki : k = i := window_index_unique hk' hi hWk hW
        subst hki
        exact hek.symm
    rw [hfind]
    simp only [Option.map_some']
    rw [hTent i hi hTi]

/-- C1: For every non-empty ordered label list of size N (distinct labels),
`calculate_angles` assigns the i-th label the angle `(270 + i*360/N) mod 360`;
all assigned angles are pairwise distinct, consecutive labels' angles differ
by exactly `360/N`, and `get_sector_from_angle` applied to a label's assigned
angle returns that label (round-trip at cell centers). -/
theorem c1_calculate_angles_layout (order : List String)
    (hne : order ≠ []) (hnd : order.Nodup) :
    (∀ i, (hi : i < order.length) →
      ((calculate_angles order).getD i ("", 0)).2 =
        mod360 (270 + (i : ℚ) * (360 / (order.length : ℚ)))) ∧
    (∀ i j, i < order.length → j < order.length → i ≠ j →
      ((calculate_angles order).getD i ("", 0)).2 ≠
        ((calculate_angles order).getD j ("", 0)).2) ∧
    (∀ i, i + 1 < order.length →
      mod360 (((calculate_angles order).getD (i + 1) ("", 0)).2 -
        ((calculate_angles order).getD i ("", 0)).2) = 360 / (order.length : ℚ)) ∧
    (∀ i, (hi : i < order.length) →
      get_sector_from_angle (calculate_angles order)
        (((calculate_angles order).getD i ("", 0)).2) = some (order.getD i "")) := by
  have hne' : ¬order.isEmpty = true := by
    simp only [List.isEmpty_iff]; exact hne
  have hn : 1 ≤ order.length := List.length_pos.mpr hne
  refine ⟨?_, ?_, ?_, ?_⟩
  · intro i hi
    rw [getD_calculate_angles order i hi hne']
  · intro i j hi hj hij heq
    rw [getD_calculate_angles order i hi hne',
      getD_calculate_angles order j hj hne'] at heq
    simp only at heq
    have hWi := window_center_mem order.length i hn
    have hWj := window_center_mem order.length j hn
    rw [← heq] at hWj
    exact hij (window_index_unique hi hj hWi hWj)
  · intro i hi
    have hn2 : 2 ≤ order.length := by omega
    rw [getD_calculate_angles order (i + 1) hi hne',
      getD_calculate_angles order i (by omega) hne']
    simp only
    set n := order.length with hndef
    set step : ℚ := 360 / (n : ℚ) with hstep
    have hnq : (2 : ℚ) ≤ (n : ℚ) := by exact_mod_cast hn2
    have hs0 : 0 < step := by rw [hstep]; positivity
    have hs1 : step < 360 := by
      rw [hstep, div_lt_iff₀ (by positivity)]
      nlinarith
    set su := 270 + ((i : ℚ) + 1) * step with hsu
    set sv := 270 + (i : ℚ) * step with hsv
    have hcast : ((i + 1 : ℕ) : ℚ) = (i : ℚ) + 1 := by push_cast; ring
    rw [hcast]
    have h1 : mod360 (mod360 su - mod360 sv) = mod360 (su - sv) := by
      refine mod360_congr (⌊sv / 360⌋ - ⌊su / 360⌋) ?_
      have h2 := self_sub_mod360 su
      have h3 := self_sub_mod360 sv
      push_cast
      linarith
    have h4 : su - sv = step := by rw [hsu, hsv]; ring
    rw [h1, h4]
    exact mod360_eq_self (le_of_lt hs0) hs1
  · intro i hi
    rw [getD_calculate_angles order i hi hne']
    refine (get_sector_calculate_iff order hnd (mod360_nonneg _) (mod360_lt _) i hi).mpr ?_
    exact window_center_mem order.length i hn

/-- Witness for C1 at the concrete label list `["A", "B", "C"]`. -/
theorem c1_witness :
    get_sector_from_angle (calculate_angles ["A", "B", "C"])
      (((calculate_angles ["A", "B", "C"]).getD 1 ("", 0)).2) = some "B" := by
  have h := c1_calculate_angles_layout ["A", "B", "C"] (by decide) (by decide)
  have h4 := h.2.2.2 1 (by norm_num)
  simpa using h4

/-- A 16-label inner order whose 5th cell (index 4, center angle 0°) owns a
window crossing the 0°/360° seam. -/
def seamOrder : List String :=
  ["L0", "L1", "L2", "L3", "L4", "L5", "L6", "L7",
   "L8", "L9", "L10", "L11", "L12", "L13", "L14", "L15"]

/-- C2: `get_sector_from_angle` returns no hit on an empty table; on a
non-empty `calculate_angles` table it returns the i-th label exactly when the
input angle lies in the half-open window
`[angleTable[L] - step/2, angleTable[L] + step/2) mod 360` with
`step = 360/N`; and a window crossing the 0°/360° seam (for `seamOrder`,
cell 4 spans `[348.75, 11.25)`) hits on both sides of the seam (355° and 5°). -/
theorem c2_get_sector_spec :
    (∀ angle : ℚ, get_sector_from_angle [] angle = none) ∧
    (∀ order : List String, order.Nodup →
      ∀ angle : ℚ, 0 ≤ angle → angle < 360 →
      ∀ i, (hi : i < order.length) →
        (get_sector_from_angle (calculate_angles order) angle = some (order.getD i "") ↔
          mod360 (angle - (((calculate_angles order).getD i ("", 0)).2 -
            360 / (order.length : ℚ) / 2)) < 360 / (order.length : ℚ))) ∧
    (get_sector_from_angle (calculate_angles seamOrder) 355 = some "L4" ∧
     get_sector_from_angle (calculate_angles seamOrder) 5 = some "L4" ∧
     mod360 (((calculate_angles seamOrder).getD 4 ("", 0)).2 - 360 / 16 / 2) = 1395 / 4 ∧
     mod360 (((calculate_angles seamOrder).getD 4 ("", 0)).2 + 360 / 16 / 2) = 45 / 4 ∧
     (45 / 4 : ℚ) < 1395 / 4) := by
  refine ⟨?_, ?_, ?_, ?_, ?_, ?_, ?_⟩
  · intro angle; rfl
  · intro order hnd angle ha0 ha1 i hi
    have hne' : ¬order.isEmpty = true := by
      simp only [List.isEmpty_iff]
      intro h
      rw [h] at hi
      simp at hi
    rw [getD_calculate_angles order i hi hne']
    rw [get_sector_calculate_iff order hnd ha0 ha1 i hi]
    exact (inCenteredWindow_congr _ angle (-⌊(270 + (i : ℚ) *
      (360 / (order.length : ℚ))) / 360⌋) (by
        have := self_sub_mod360 (270 + (i : ℚ) * (360 / (order.length : ℚ)))
        push_cast
        linarith)).symm
  · norm_num [get_sector_from_angle, calculate_angles, seamOrder, List.enum,
      List.enumFrom, List.find?, inArc, mod360]
  · norm_num [get_sector_from_angle, calculate_angles, seamOrder, List.enum,
      List.enumFrom, List.find?, inArc, mod360]
  · norm_num [calculate_angles, seamOrder, List.enum, List.enumFrom, mod360]
  · norm_num [calculate_angles, seamOrder, List.enum, List.enumFrom, mod360]
  · norm_num

/-- Witness for C2 at the concrete list `["A", "B", "C"]` and angle 270°. -/
theorem c2_witness :
    get_sector_from_angle (calculate_angles ["A", "B", "C"]) 270 = some "A" := by
  have h := (c2_get_sector_spec.2.1 ["A", "B", "C"] (by decide) 270 (by norm_num)
    (by norm_num) 0 (by norm_num)).mpr (by
      norm_num [calculate_angles, List.enum, List.enumFrom, mod360])
  simpa using h

theorem mod360_sub_mod360 (x y : ℚ) :
    mod360 (mod360 x - mod360 y) = mod360 (x - y) := by
  refine mod360_congr (⌊y / 360⌋ - ⌊x / 360⌋) ?_
  have hx := self_sub_mod360 x
  have hy := self_sub_mod360 y
  push_cast
  linarith

theorem getD_get_child_angles (mult center : ℚ) (p : String)
    (inner_angles : List (String × ℚ)) (labels : List String)
    (hlk : inner_angles.lookup p = some center) (hne : ¬labels.isEmpty = true)
    (i : ℕ) (hi : i < labels.length) :
    (get_child_angles mult inner_angles (some p) labels).getD i ("", 0) =
      (labels.getD i "",
        mod360 (mod360 (center - 25 * mult * (labels.length : ℚ) / 2) +
          (i : ℚ) * (25 * mult))) := by
  unfold get_child_angles
  simp only [hlk, Option.getD_some, if_neg hne]
  rw [List.getD_eq_getElem _ _ (by simpa using hi)]
  rw [List.getElem_map, List.getElem_enum]
  simp [List.getD_eq_getElem?_getD, List.getElem?_eq_getElem hi]

theorem length_get_child_angles (mult : ℚ) (p : String)
    (inner_angles : List (String × ℚ)) (labels : List String) :
    (get_child_angles mult inner_angles (some p) labels).length = labels.length := by
  unfold get_child_angles
  by_cases h : labels.isEmpty = true
  · simp only [if_pos h]
    have := List.isEmpty_iff.mp h
    simp [this]
  · simp only [if_neg h]
    simp

/-- C3: For an active parent `p` at angle `center` with `K` children and
per-child step `S = 25 * child_angle_mult`, `get_child_angles` lays all `K`
children out with the first child at `(center - K*S/2) mod 360` and
consecutive children exactly `S` apart (mod 360); the total arc `K*S` is not
tied to 360° (a 2-child layout at multiplier 1 spans 50°, not 360°). -/
theorem c3_get_child_angles_packing (mult center : ℚ) (p : String)
    (inner_angles : List (String × ℚ)) (labels : List String)
    (hlk : inner_angles.lookup p = some center) (hne : labels ≠ []) :
    ((get_child_angles mult inner_angles (some p) labels).length = labels.length) ∧
    (((get_child_angles mult inner_angles (some p) labels).getD 0 ("", 0)).2 =
      mod360 (center - (labels.length : ℚ) * (25 * mult) / 2)) ∧
    (∀ i, i + 1 < labels.length →
      mod360 (((get_child_angles mult inner_angles (some p) labels).getD (i + 1) ("", 0)).2 -
        ((get_child_angles mult inner_angles (some p) labels).getD i ("", 0)).2) =
        mod360 (25 * mult)) ∧
    (get_child_angles 1 [("P", (0 : ℚ))] (some "P") ["a", "b"] =
      [("a", 335), ("b", 0)] ∧ (25 : ℚ) * (1 : ℚ) * (2 : ℚ) ≠ 360) := by
  have hne' : ¬labels.isEmpty = true := by
    simp only [List.isEmpty_iff]; exact hne
  have hn : 0 < labels.length := List.length_pos.mpr hne
  refine ⟨length_get_child_angles mult p inner_angles labels, ?_, ?_, ?_, ?_⟩
  · rw [getD_get_child_angles mult center p inner_angles labels hlk hne' 0 hn]
    simp only [Nat.cast_zero, zero_mul, add_zero, mod360_idem]
    ring_nf
  · intro i hi
    rw [getD_get_child_angles mult center p inner_angles labels hlk hne' (i + 1) hi,
      getD_get_child_angles mult center p inner_angles labels hlk hne' i (by omega)]
    simp only
    rw [mod360_sub_mod360]
    congr 1
    push_cast
    ring
  · norm_num [get_child_angles, List.enum, List.enumFrom, mod360, List.lookup]
  · norm_num

/-- Witness for C3 at multiplier 1, parent angle 270°, three children. -/
theorem c3_witness :
    ((get_child_angles 1 [("P", (270 : ℚ))] (some "P") ["a", "b", "c"]).getD 0
      ("", 0)).2 = 465 / 2 := by
  have h := c3_get_child_angles_packing 1 270 "P" [("P", (270 : ℚ))] ["a", "b", "c"]
    (by simp [List.lookup]) (by decide)
  rw [h.2.1]
  norm_num [mod360]

/-- A child entry (`children[label]` record): no further nesting. -/
structure ChildSec where
  command : String
  description : String
deriving DecidableEq, Inhabited

/-- An inner-section entry (`inner_section[label]` record); `children = none`
models an absent `"children"` key, `some l` a present one. -/
structure InnerSec where
  command : String
  description : String
  children : Option (List (String × ChildSec))
deriving DecidableEq, Inhabited

/-- Python truthiness of an optional string (`None` and `""` are falsy).
Section labels are dict keys the source always guards with `if lab:`, so an
empty-string label behaves as "no hit" throughout. -/
def truthyStr : Option String → Bool
  | none => false
  | some s => !(s == "")

/-- Python truthiness of an optional children mapping (`None` and `{}` falsy). -/
def truthyChildren : Option (List (String × ChildSec)) → Bool
  | none => false
  | some l => !l.isEmpty

/-- `opt or None` as used after `lab = self.get_sector_from_angle(angle)`:
collapses a falsy hit (Python `None`/`""`) to `none`. -/
def strOrNone (o : Option String) : Option String :=
  if truthyStr o then o else none

/-- `self.inner_sections.get(lab, {}).get("children", {})`. -/
def childrenOf (secs : List (String × InnerSec)) (lab : String) :
    List (String × ChildSec) :=
  match secs.lookup lab with
  | none => []
  | some s => s.children.getD []

/-- The global `ui.size` fields the geometry uses. -/
structure SizeCfg where
  radius : ℚ
  ring_gap : ℚ
  outer_ring_width : ℚ
  child_angle_mult : ℚ
  inner_hole : ℚ
deriving DecidableEq

/-- `self.outer_radius = self.radius + self.ring_gap + self.outer_ring_width`. -/
def SizeCfg.outer_radius (c : SizeCfg) : ℚ := c.radius + c.ring_gap + c.outer_ring_width

/-- The widget's loaded menu data: size config plus the active preset's
`inner_section` mapping; the order/angle caches are derived from it exactly as
`__init__`/`_preview_preset` derive them. -/
structure Widget where
  cfg : SizeCfg
  inner_sections : List (String × InnerSec)
deriving DecidableEq

def Widget.inner_order (w : Widget) : List String := w.inner_sections.map Prod.fst

def Widget.inner_angles (w : Widget) : List (String × ℚ) :=
  calculate_angles w.inner_order

/-- `self.get_child_angles()` reading the given active sector and hovered
children off the state. -/
def childAnglesNow (w : Widget) (active : Option String)
    (hov : Option (List (String × ChildSec))) : List (String × ℚ) :=
  get_child_angles w.cfg.child_angle_mult w.inner_angles active
    ((hov.getD []).map Prod.fst)

/-- `self.get_outer_sector_from_angle(angle, ...)` reading the given active
sector and hovered children off the state. -/
def outerSectorNow (w : Widget) (active : Option String)
    (hov : Option (List (String × ChildSec))) (angle : ℚ) : Option String :=
  get_outer_sector_from_angle w.cfg.child_angle_mult w.inner_angles active
    ((hov.getD []).map Prod.fst) angle

/-- The embedded widget's mutable interaction state: hover/lock/selection
fields, the mirrored editor controls, and the in-flight drag fields. -/
structure WState where
  sticky_parent : Option String
  current_parent_label : String
  active_sector : Option String
  outer_active_sector : Option String
  hovered_children : Option (List (String × ChildSec))
  hovered_child_angles : List (String × ℚ)
  hiddenLabel : String
  hiddenType : String
  hiddenParent : String
  label_lineEdit : String
  scriptEditor : String
  descEditor : String
  dragging_label : Option String
  drag_hover_target : Option String
  dragging_child : Option String
  child_drag_hover_target : Option String
deriving DecidableEq

/-- The all-cleared idle state (fresh widget, nothing hovered or selected). -/
def idleState : WState :=
  { sticky_parent := none, current_parent_label := "", active_sector := none,
    outer_active_sector := none, hovered_children := none,
    hovered_child_angles := [], hiddenLabel := "", hiddenType := "",
    hiddenParent := "", label_lineEdit := "", scriptEditor := "",
    descEditor := "", dragging_label := none, drag_hover_target := none,
    dragging_child := none, child_drag_hover_target := none }

/-- Embeds the left-button branch of `RadialMenuWidget.mousePressEvent`
(radialWidget.py:662-779) at pointer polar position `(angle, dist)`:
inner-ring click toggles the sticky lock on/off; child-ring click selects a
child or, re-clicking the same selected child, clears the whole selection via
`_clear_selection_state` (radialWidget.py:370-376); any other click clears
everything. -/
def lmbPress (w : Widget) (st : WState) (angle dist : ℚ) : WState :=
  let inner_r := w.cfg.radius
  let outer_inner_r := w.cfg.radius + w.cfg.ring_gap
  let outer_outer_r := w.cfg.outer_radius
  let innerHit : Option String :=
    if dist ≤ inner_r ∧ ¬w.inner_order.isEmpty = true then
      strOrNone (get_sector_from_angle w.inner_angles angle)
    else none
  match innerHit with
  | some lab =>
    if st.hiddenType = "inner" ∧ st.hiddenLabel = lab then
      -- toggle OFF: clear selection & unlock children
      { st with
        sticky_parent := none
        active_sector := none
        hovered_children := none
        hovered_child_angles := []
        outer_active_sector := none
        hiddenLabel := ""
        hiddenType := ""
        hiddenParent := ""
        label_lineEdit := ""
        scriptEditor := ""
        descEditor := "" }
    else
      -- toggle ON to this parent
      let hov := some (childrenOf w.inner_sections lab)
      let sec := (w.inner_sections.lookup lab).getD default
      { st with
        sticky_parent := some lab
        active_sector := some lab
        hovered_children := hov
        hovered_child_angles :=
          if truthyChildren hov = true then childAnglesNow w (some lab) hov else []
        outer_active_sector := none
        hiddenLabel := lab
        hiddenType := "inner"
        hiddenParent := ""
        label_lineEdit := lab
        scriptEditor := sec.command
        descEditor := sec.description }
  | none =>
    let childHit : Option String :=
      if outer_inner_r < dist ∧ dist ≤ outer_outer_r ∧
          truthyChildren st.hovered_children = true then
        strOrNone (outerSectorNow w st.active_sector st.hovered_children angle)
      else none
    match childHit with
    | some tgt =>
      let parent_label : String :=
        (if truthyStr st.sticky_parent = true then st.sticky_parent
         else if truthyStr st.active_sector = true then st.active_sector
         else none).getD ""
      if st.hiddenType = "child" ∧ st.hiddenLabel = tgt ∧
          st.hiddenParent = parent_label then
        -- toggle OFF child: clear editor fields then `_clear_selection_state`
        { st with
          hiddenLabel := ""
          hiddenType := ""
          hiddenParent := ""
          label_lineEdit := ""
          scriptEditor := ""
          descEditor := ""
          sticky_parent := none
          current_parent_label := ""
          active_sector := none
          outer_active_sector := none
          hovered_children := none
          hovered_child_angles := [] }
      else
        -- select this child; parent remains locked & children visible
        let sec : ChildSec :=
          if parent_label ≠ "" then
            ((childrenOf w.inner_sections parent_label).lookup tgt).getD default
          else default
        let sticky2 : Option String :=
          if parent_label ≠ "" then some parent_label else st.sticky_parent
        let hov2 : Option (List (String × ChildSec)) :=
          if truthyStr sticky2 = true then
            some (childrenOf w.inner_sections (sticky2.getD ""))
          else none
        { st with
          outer_active_sector := some tgt
          hiddenLabel := tgt
          hiddenType := "child"
          hiddenParent := parent_label
          label_lineEdit := tgt
          scriptEditor := sec.command
          descEditor := sec.description
          sticky_parent := sticky2
          active_sector := sticky2
          hovered_children := hov2
          hovered_child_angles :=
            if truthyChildren hov2 = true then childAnglesNow w sticky2 hov2 else [] }
    | none =>
      -- clicked elsewhere: clear everything
      { st with
        sticky_parent := none
        active_sector := none
        hovered_children := none
        hovered_child_angles := []
        outer_active_sector := none
        hiddenLabel := ""
        hiddenType := ""
        hiddenParent := ""
        label_lineEdit := ""
        scriptEditor := ""
        descEditor := "" }

/-- One pass of the embedded widget's plain-hover resolution, lines 944-965 of
`RadialMenuWidget.mouseMoveEvent` (a textually identical second copy sits at
lines 967-1001 and runs right after it in the non-sticky path). -/
def hoverResolve (w : Widget) (st : WState) (angle dist : ℚ) : WState :=
  let inner_radius := w.cfg.radius
  let outer_outer_radius := w.cfg.outer_radius
  if dist ≤ inner_radius then
    let act := strOrNone (get_sector_from_angle w.inner_angles angle)
    match act with
    | some a =>
      match ((w.inner_sections.lookup a).getD default).children with
      | some kids =>
        { st with
          active_sector := some a
          outer_active_sector := none
          hovered_children := some kids
          hovered_child_angles := childAnglesNow w (some a) (some kids) }
      | none =>
        { st with
          active_sector := some a
          outer_active_sector := none
          hovered_children := none
          hovered_child_angles := [] }
    | none =>
      { st with
        active_sector := none
        outer_active_sector := none
        hovered_children := none
        hovered_child_angles := [] }
  else if dist ≤ outer_outer_radius + 50 ∧ truthyChildren st.hovered_children = true then
    { st with outer_active_sector :=
        outerSectorNow w st.active_sector st.hovered_children angle }
  else
    { st with
      active_sector := none
      outer_active_sector := none
      hovered_children := none
      hovered_child_angles := [] }

/-- Embeds `RadialMenuWidget.mouseMoveEvent` (radialWidget.py:892-1001):
drag branches only retarget the drag hover; with a sticky parent the lock is
re-asserted and only the child highlight follows the cursor; otherwise the
duplicated hover block runs twice. -/
def mouseMove (w : Widget) (st : WState) (angle dist : ℚ) : WState :=
  let outer_inner_radius := w.cfg.radius + w.cfg.ring_gap
  let outer_outer_radius := w.cfg.outer_radius
  if truthyStr st.dragging_label = true then
    { st with drag_hover_target :=
        if dist ≤ w.cfg.radius then
          strOrNone (get_sector_from_angle w.inner_angles angle)
        else none }
  else if truthyStr st.dragging_child = true then
    { st with child_drag_hover_target :=
        if outer_inner_radius < dist ∧ dist ≤ outer_outer_radius then
          strOrNone (outerSectorNow w st.active_sector st.hovered_children angle)
        else none }
  else if truthyStr st.sticky_parent = true then
    let hov := some (childrenOf w.inner_sections (st.sticky_parent.getD ""))
    { st with
      active_sector := st.sticky_parent
      hovered_children := hov
      hovered_child_angles :=
        if truthyChildren hov = true then childAnglesNow w st.sticky_parent hov else []
      outer_active_sector :=
        if outer_inner_radius < dist ∧ dist ≤ outer_outer_radius ∧
            truthyChildren hov = true then
          outerSectorNow w st.sticky_parent hov angle
        else none }
  else
    hoverResolve w (hoverResolve w st angle dist) angle dist

theorem hoverResolve_sticky_parent (w : Widget) (st : WState) (a d : ℚ) :
    (hoverResolve w st a d).sticky_parent = st.sticky_parent := by
  unfold hoverResolve
  dsimp only
  repeat' split
  all_goals rfl

theorem mouseMove_sticky_parent (w : Widget) (st : WState) (a d : ℚ) :
    (mouseMove w st a d).sticky_parent = st.sticky_parent := by
  unfold mouseMove
  repeat' split
  all_goals first
    | rfl
    | rw [hoverResolve_sticky_parent, hoverResolve_sticky_parent]

/-- C5: While the embedded widget holds a sticky parent, no sequence of
pointer-move events ever clears the lock; a single non-drag move re-asserts
the sticky parent as active with its children visible, leaves the selection
mirror and drag fields untouched, and only the outer child highlight follows
the cursor (set inside the outer band, cleared outside it — including when the
pointer is entirely outside both rings). -/
theorem c5_sticky_lock_move_invariant (w : Widget) (st : WState) (p : String)
    (hs : st.sticky_parent = some p) (hp : ¬p = "") :
    (∀ moves : List (ℚ × ℚ),
      (moves.foldl (fun s m => mouseMove w s m.1 m.2) st).sticky_parent = some p) ∧
    (∀ angle dist : ℚ,
      truthyStr st.dragging_label = false →
      truthyStr st.dragging_child = false →
      (mouseMove w st angle dist).sticky_parent = some p ∧
      (mouseMove w st angle dist).active_sector = some p ∧
      (mouseMove w st angle dist).hovered_children =
        some (childrenOf w.inner_sections p) ∧
      (mouseMove w st angle dist).hiddenLabel = st.hiddenLabel ∧
      (mouseMove w st angle dist).hiddenType = st.hiddenType ∧
      (mouseMove w st angle dist).hiddenParent = st.hiddenParent ∧
      (mouseMove w st angle dist).dragging_label = st.dragging_label ∧
      (mouseMove w st angle dist).dragging_child = st.dragging_child ∧
      (mouseMove w st angle dist).outer_active_sector =
        (if w.cfg.radius + w.cfg.ring_gap < dist ∧ dist ≤ w.cfg.outer_radius ∧
            truthyChildren (some (childrenOf w.inner_sections p)) = true then
          outerSectorNow w (some p) (some (childrenOf w.inner_sections p)) angle
        else none)) := by
  have hpt : truthyStr (some p) = true := by
    simp [truthyStr, hp]
  constructor
  · intro moves
    induction moves generalizing st with
    | nil => simpa using hs
    | cons m ms ih =>
      simp only [List.foldl_cons]
      exact ih (mouseMove w st m.1 m.2) (by rw [mouseMove_sticky_parent]; exact hs)
  · intro angle dist hd1 hd2
    unfold mouseMove
    rw [if_neg (by rw [hd1]; simp), if_neg (by rw [hd2]; simp),
      if_pos (by rw [hs]; exact hpt)]
    rw [hs]
    simp only [Option.getD_some, and_self, eq_self_iff_true, true_and]

/-- The concrete embedded widget used in the scenarios: one inner section
`"P"` with two children `"A"`, `"B"`; default global sizes
(radius 150, gap 5, outer width 25, multiplier 1, hole 52). -/
def kidsPC : List (String × ChildSec) :=
  [("A", ⟨"cmdA", "descA"⟩), ("B", ⟨"cmdB", "descB"⟩)]

def widgetPC : Widget :=
  ⟨⟨150, 5, 25, 1, 52⟩, [("P", ⟨"cmdP", "descP", some kidsPC⟩)]⟩

/-- Witness for C5: starting locked on `"P"`, a sweep of moves (far outside,
in the child band, inside the hole) leaves the lock in place. -/
theorem c5_witness :
    (([((0 : ℚ), (1000 : ℚ)), (250, 160), (50, 10)]).foldl
      (fun s m => mouseMove widgetPC s m.1 m.2)
      { idleState with sticky_parent := some "P" }).sticky_parent = some "P" :=
  (c5_sticky_lock_move_invariant widgetPC
    { idleState with sticky_parent := some "P" } "P" rfl (by decide)).1
    [((0 : ℚ), (1000 : ℚ)), (250, 160), (50, 10)]

/-- C4 (amended): in the embedded widget's click machine, a primary click on
child `C` in the outer band while parent `P` is locked selects `C` (the
selection mirror shows `child`/`C`/`P` and `P` stays sticky with children
visible); but a second primary click on the same selected `C` clears the
WHOLE selection back to full idle — the sticky parent is dropped and the
children hidden — it does not revert to `INNER_LOCKED(P)`. -/
theorem c4_child_click_select_then_full_clear (w : Widget) (st : WState)
    (P C : String) (angle dist : ℚ)
    (hP : ¬P = "") (hsticky : st.sticky_parent = some P)
    (hdist1 : ¬dist ≤ w.cfg.radius)
    (hdist2 : w.cfg.radius + w.cfg.ring_gap < dist)
    (hdist3 : dist ≤ w.cfg.outer_radius)
    (hhov : truthyChildren st.hovered_children = true)
    (hhit : outerSectorNow w st.active_sector st.hovered_children angle = some C)
    (hC : ¬C = "") :
    (¬(st.hiddenType = "child" ∧ st.hiddenLabel = C ∧ st.hiddenParent = P) →
      (lmbPress w st angle dist).outer_active_sector = some C ∧
      (lmbPress w st angle dist).hiddenType = "child" ∧
      (lmbPress w st angle dist).hiddenLabel = C ∧
      (lmbPress w st angle dist).hiddenParent = P ∧
      (lmbPress w st angle dist).sticky_parent = some P ∧
      (lmbPress w st angle dist).active_sector = some P ∧
      (lmbPress w st angle dist).hovered_children =
        some (childrenOf w.inner_sections P)) ∧
    (st.hiddenType = "child" → st.hiddenLabel = C → st.hiddenParent = P →
      (lmbPress w st angle dist).sticky_parent = none ∧
      (lmbPress w st angle dist).active_sector = none ∧
      (lmbPress w st angle dist).outer_active_sector = none ∧
      (lmbPress w st angle dist).hovered_children = none ∧
      (lmbPress w st angle dist).hovered_child_angles = [] ∧
      (lmbPress w st angle dist).hiddenType = "" ∧
      (lmbPress w st angle dist).hiddenLabel = "" ∧
      (lmbPress w st angle dist).hiddenParent = "") := by
  have hCt : truthyStr (some C) = true := by simp [truthyStr, hC]
  have hPt : truthyStr (some P) = true := by simp [truthyStr, hP]
  have e1 : ¬(dist ≤ w.cfg.radius ∧ ¬w.inner_order.isEmpty = true) :=
    fun hc => hdist1 hc.1
  have e2 : w.cfg.radius + w.cfg.ring_gap < dist ∧ dist ≤ w.cfg.outer_radius ∧
      truthyChildren st.hovered_children = true := ⟨hdist2, hdist3, hhov⟩
  constructor
  · intro hne
    unfold lmbPress
    simp only [if_neg e1, if_pos e2, hhit, strOrNone, hCt, hsticky,
      if_pos hPt, Option.getD_some, if_neg hne, if_pos hP, ne_eq, ite_self,
      if_true, ite_true, ite_false, eq_self_iff_true, and_self, true_and,
      and_true, not_false_iff]
    all_goals simp [hPt]
  · intro h1 h2 h3
    unfold lmbPress
    simp only [if_neg e1, if_pos e2, hhit, strOrNone, hCt, hsticky,
      if_pos hPt, Option.getD_some, if_true, ite_true, ite_false, ite_self,
      eq_self_iff_true, and_self, true_and, and_true]
    simp only [if_pos (show st.hiddenType = "child" ∧
      st.hiddenLabel = C ∧ st.hiddenParent = P from ⟨h1, h2, h3⟩)]
    all_goals simp

/-- The embedded-widget state after locking `"P"` from idle (a primary click
inside the `"P"` wedge). -/
def lockedPState : WState :=
  { idleState with
    sticky_parent := some "P"
    active_sector := some "P"
    hovered_children := some kidsPC
    hovered_child_angles := [("A", 245), ("B", 270)]
    hiddenLabel := "P"
    hiddenType := "inner"
    label_lineEdit := "P"
    scriptEditor := "cmdP"
    descEditor := "descP" }

/-- The embedded-widget state after additionally selecting child `"A"`. -/
def selAState : WState :=
  { idleState with
    sticky_parent := some "P"
    active_sector := some "P"
    outer_active_sector := some "A"
    hovered_children := some kidsPC
    hovered_child_angles := [("A", 245), ("B", 270)]
    hiddenLabel := "A"
    hiddenType := "child"
    hiddenParent := "P"
    label_lineEdit := "A"
    scriptEditor := "cmdA"
    descEditor := "descA" }

theorem press_lock_P :
    lmbPress widgetPC idleState 270 100 = lockedPState := by
  simp [lmbPress, idleState, lockedPState, widgetPC, kidsPC, strOrNone,
    truthyStr, truthyChildren, childrenOf, childAnglesNow,
    get_child_angles, get_sector_from_angle, Widget.inner_angles,
    Widget.inner_order, SizeCfg.outer_radius, calculate_angles, List.enum,
    List.enumFrom, List.find?, List.lookup, inArc, mod360]
  all_goals (try norm_num [mod360])
  all_goals (try simp [kidsPC])
  all_goals (try norm_num [mod360])
  all_goals (try simp [kidsPC])
  all_goals decide

theorem press_select_A :
    lmbPress widgetPC lockedPState 250 160 = selAState := by
  simp [lmbPress, idleState, lockedPState, selAState, widgetPC, kidsPC,
    strOrNone, truthyStr, truthyChildren, childrenOf, outerSectorNow,
    childAnglesNow, get_outer_sector_from_angle, get_child_angles,
    get_sector_from_angle, Widget.inner_angles, Widget.inner_order,
    SizeCfg.outer_radius, calculate_angles, List.enum, List.enumFrom,
    List.find?, List.lookup, inArc, mod360]
  all_goals (try norm_num [mod360])
  all_goals (try simp [kidsPC])
  all_goals (try norm_num [mod360])
  all_goals (try simp [kidsPC])
  all_goals decide

theorem press_toggle_A_clears :
    lmbPress widgetPC selAState 250 160 = idleState := by
  simp [lmbPress, idleState, selAState, widgetPC, kidsPC,
    strOrNone, truthyStr, truthyChildren, childrenOf, outerSectorNow,
    childAnglesNow, get_outer_sector_from_angle, get_child_angles,
    get_sector_from_angle, Widget.inner_angles, Widget.inner_order,
    SizeCfg.outer_radius, calculate_angles, List.enum, List.enumFrom,
    List.find?, List.lookup, inArc, mod360]
  all_goals (try norm_num [mod360])
  all_goals (try simp [kidsPC])
  all_goals (try norm_num [mod360])
  all_goals (try simp [kidsPC])
  all_goals decide

/-- Witness for C4's amended theorem: re-clicking the selected child `"A"`
of `widgetPC` at angle 250°, distance 160 clears the lock entirely. -/
theorem c4_witness :
    (lmbPress widgetPC selAState 250 160).sticky_parent = none ∧
    (lmbPress widgetPC selAState 250 160).hovered_children = none := by
  have h := c4_child_click_select_then_full_clear widgetPC selAState "P" "A" 250 160
    (by decide) rfl (by norm_num [widgetPC]) (by norm_num [widgetPC])
    (by norm_num [widgetPC, SizeCfg.outer_radius]) (by decide)
    (by norm_num [outerSectorNow, get_outer_sector_from_angle, get_child_angles,
      widgetPC, Widget.inner_angles, Widget.inner_order, kidsPC, selAState,
      calculate_angles, List.enum, List.enumFrom, List.find?, List.lookup,
      inArc, mod360])
    (by decide)
  have h2 := h.2 rfl rfl rfl
  exact ⟨h2.1, h2.2.2.2.1⟩

/-- C4 (counterexample to the claim as stated): run the real scenario on
`widgetPC` — click the inner wedge of `"P"` (locks it), click child `"A"`
(selects it), then click `"A"` again.  The claim says the second click on the
selected child reverts to `INNER_LOCKED(P)` with `P` sticky and its children
visible; the code instead clears everything back to idle. -/
theorem c4_counterexample :
    (lmbPress widgetPC idleState 270 100).sticky_parent = some "P" ∧
    ((lmbPress widgetPC (lmbPress widgetPC idleState 270 100) 250 160).hiddenType
      = "child" ∧
     (lmbPress widgetPC (lmbPress widgetPC idleState 270 100) 250 160).hiddenLabel
      = "A" ∧
     (lmbPress widgetPC (lmbPress widgetPC idleState 270 100) 250 160).sticky_parent
      = some "P") ∧
    ¬((lmbPress widgetPC
        (lmbPress widgetPC (lmbPress widgetPC idleState 270 100) 250 160)
        250 160).sticky_parent = some "P" ∧
      (lmbPress widgetPC
        (lmbPress widgetPC (lmbPress widgetPC idleState 270 100) 250 160)
        250 160).hovered_children =
          some (childrenOf widgetPC.inner_sections "P")) := by
  rw [press_lock_P, press_select_A, press_toggle_A_clears]
  refine ⟨rfl, ⟨rfl, rfl, rfl⟩, ?_⟩
  intro hcon
  exact Option.noConfusion hcon.1

/-- Python `int(x)`: truncation toward zero. -/
def pytrunc (x : ℚ) : ℤ := if x < 0 then -⌊-x⌋ else ⌊x⌋

/-- The standalone popup's hover state (`RadialMenu`): active/outer sector,
hovered children and angle cache, plus the `_parent_anchor` field that keeps
the parent stable near the outer ring. -/
structure PState where
  active_sector : Option String
  outer_active_sector : Option String
  hovered_children : Option (List (String × ChildSec))
  hovered_child_angles : List (String × ℚ)
  parent_anchor : Option String
deriving DecidableEq

/-- Embeds `RadialMenu.mouseMoveEvent` (radialWidget.py:1564-1637): clears
inside the hole, resolves the inner annulus, keeps the parent anchored in a
hysteresis band around the outer ring — highlighting a child only inside the
true ring band — and clears far outside. -/
def popupMouseMove (w : Widget) (st : PState) (angle dist : ℚ) : PState :=
  let inner_radius := w.cfg.radius
  let inner_hole := w.cfg.inner_hole
  let outer_inner_radius := w.cfg.radius + w.cfg.ring_gap
  let outer_outer_radius := w.cfg.outer_radius
  let hyst : ℚ := ((max 12 (pytrunc (w.cfg.outer_ring_width * (6 / 10))) : ℤ) : ℚ)
  let ring_inner_with_hyst := max inner_hole (outer_inner_radius - hyst)
  let ring_outer_with_hyst := outer_outer_radius + hyst
  let sector_at_angle := strOrNone (get_sector_from_angle w.inner_angles angle)
  if dist < inner_hole then
    { st with
      active_sector := none
      outer_active_sector := none
      hovered_children := none
      hovered_child_angles := []
      parent_anchor := none }
  else if inner_hole ≤ dist ∧ dist ≤ inner_radius then
    match sector_at_angle with
    | some a =>
      match ((w.inner_sections.lookup a).getD default).children with
      | some kids =>
        { st with
          active_sector := some a
          outer_active_sector := none
          hovered_children := some kids
          hovered_child_angles := childAnglesNow w (some a) (some kids)
          parent_anchor := some a }
      | none =>
        { st with
          active_sector := some a
          outer_active_sector := none
          hovered_children := none
          hovered_child_angles := []
          parent_anchor := none }
    | none =>
      { st with
        active_sector := none
        outer_active_sector := none
        hovered_children := none
        hovered_child_angles := []
        parent_anchor := none }
  else if ring_inner_with_hyst ≤ dist ∧ dist ≤ ring_outer_with_hyst ∧
      truthyChildren st.hovered_children = true ∧
      truthyStr st.parent_anchor = true then
    { st with
      active_sector := st.parent_anchor
      outer_active_sector :=
        if outer_inner_radius ≤ dist ∧ dist ≤ outer_outer_radius then
          outerSectorNow w st.parent_anchor st.hovered_children angle
        else none }
  else
    { st with
      active_sector := none
      outer_active_sector := none
      hovered_children := none
      hovered_child_angles := []
      parent_anchor := none }

/-- Spec-side hit predicate for the outer ring: child `c` owns a window
`[start, start + step)` (wrap handled by `inArc`) in the current child angle
table and the pointer angle falls in it. -/
def childWindowHit (w : Widget) (active : Option String)
    (hov : Option (List (String × ChildSec))) (angle : ℚ) (c : String) : Prop :=
  ∃ start : ℚ,
    (c, start) ∈ get_child_angles w.cfg.child_angle_mult w.inner_angles active
      ((hov.getD []).map Prod.fst) ∧
    inArc start (mod360 (start + 25 * w.cfg.child_angle_mult)) angle = true

theorem outerSectorNow_some_windowHit {w : Widget} {active : Option String}
    {hov : Option (List (String × ChildSec))} {angle : ℚ} {c : String}
    (h : outerSectorNow w active hov angle = some c) :
    childWindowHit w active hov angle c := by
  unfold outerSectorNow get_outer_sector_from_angle at h
  rcases Option.map_eq_some'.mp h with ⟨e, hfind, hfst⟩
  have hpe := List.find?_some hfind
  have hmem := List.mem_of_find?_eq_some hfind
  refine ⟨e.2, ?_, hpe⟩
  rw [← hfst]
  simpa using hmem

theorem popup_outer_band {w : Widget} {st : PState} {angle dist : ℚ} {c : String}
    (h : (popupMouseMove w st angle dist).outer_active_sector = some c) :
    (w.cfg.radius + w.cfg.ring_gap ≤ dist ∧ dist ≤ w.cfg.outer_radius) ∧
    childWindowHit w st.parent_anchor st.hovered_children angle c := by
  unfold popupMouseMove at h
  dsimp only at h
  repeat' split at h
  all_goals try dsimp only at h
  all_goals try exact absurd h (by simp)
  rename_i hband
  exact ⟨hband, outerSectorNow_some_windowHit h⟩

theorem hoverResolve_outer_bounds {w : Widget} {st : WState} {angle dist : ℚ}
    {c : String}
    (h : (hoverResolve w st angle dist).outer_active_sector = some c) :
    (¬dist ≤ w.cfg.radius) ∧ dist ≤ w.cfg.outer_radius + 50 ∧
    childWindowHit w st.active_sector st.hovered_children angle c := by
  unfold hoverResolve at h
  dsimp only at h
  repeat' split at h
  all_goals try dsimp only at h
  all_goals try exact absurd h (by simp)
  rename_i h1 h2
  exact ⟨h1, h2.1, outerSectorNow_some_windowHit h⟩

/-- C7 (amended): hover resolution reports a child as hit only when the angle
lies in that child's `[start, start + step)` window; the distance band differs
by host: the standalone popup requires the distance to lie in the outer-ring
band `[innerRadius + ringGap, innerRadius + ringGap + outerRingWidth]`; the
embedded widget's sticky branch requires the half-open band
`(innerRadius + ringGap, outerRadius]`; but the embedded widget's plain-hover
branch only requires `innerRadius < distance ≤ outerRadius + 50`, so there a
child can be reported hit at distances outside the outer-ring band. -/
theorem c7_outer_hit_band (w : Widget) :
    (∀ (st : PState) (angle dist : ℚ) (c : String),
      (popupMouseMove w st angle dist).outer_active_sector = some c →
      (w.cfg.radius + w.cfg.ring_gap ≤ dist ∧ dist ≤ w.cfg.outer_radius) ∧
      childWindowHit w st.parent_anchor st.hovered_children angle c) ∧
    (∀ (st : WState) (angle dist : ℚ) (c : String),
      truthyStr st.dragging_label = false →
      truthyStr st.dragging_child = false →
      truthyStr st.sticky_parent = true →
      (mouseMove w st angle dist).outer_active_sector = some c →
      (w.cfg.radius + w.cfg.ring_gap < dist ∧ dist ≤ w.cfg.outer_radius) ∧
      childWindowHit w st.sticky_parent
        (some (childrenOf w.inner_sections (st.sticky_parent.getD ""))) angle c) ∧
    (∀ (st : WState) (angle dist : ℚ) (c : String),
      truthyStr st.dragging_label = false →
      truthyStr st.dragging_child = false →
      truthyStr st.sticky_parent = false →
      (mouseMove w st angle dist).outer_active_sector = some c →
      (¬dist ≤ w.cfg.radius) ∧ dist ≤ w.cfg.outer_radius + 50 ∧
      childWindowHit w (hoverResolve w st angle dist).active_sector
        (hoverResolve w st angle dist).hovered_children angle c) := by
  refine ⟨fun st angle dist c h => popup_outer_band h, ?_, ?_⟩
  · intro st angle dist c hd1 hd2 hsp h
    unfold mouseMove at h
    rw [if_neg (by rw [hd1]; simp), if_neg (by rw [hd2]; simp), if_pos hsp] at h
    dsimp only at h
    split at h
    · rename_i hband
      exact ⟨⟨hband.1, hband.2.1⟩, outerSectorNow_some_windowHit h⟩
    · exact absurd h (by simp)
  · intro st angle dist c hd1 hd2 hsp h
    unfold mouseMove at h
    rw [if_neg (by rw [hd1]; simp), if_neg (by rw [hd2]; simp),
      if_neg (by rw [hsp]; simp)] at h
    exact hoverResolve_outer_bounds h

/-- The embedded widget hovering parent `"P"` (children visible), not locked,
no drag in flight. -/
def gapHoverState : WState :=
  { idleState with
    active_sector := some "P"
    hovered_children := some kidsPC
    hovered_child_angles := [("A", 245), ("B", 270)] }

/-- C7 (counterexample to the claim as stated): in the embedded preview
widget, at distance 152 — inside the ring gap, strictly below the outer-ring
band's lower edge `innerRadius + ringGap = 155` — the hover resolution still
reports child `"A"` as hit, contradicting the claim that no child is reported
hit for distances outside the band in both widgets. -/
theorem c7_counterexample :
    (mouseMove widgetPC gapHoverState 250 152).outer_active_sector = some "A" ∧
    ¬(widgetPC.cfg.radius + widgetPC.cfg.ring_gap ≤ 152) := by
  constructor
  · simp [mouseMove, hoverResolve, gapHoverState, idleState, widgetPC, kidsPC,
      strOrNone, truthyStr, truthyChildren, childrenOf, outerSectorNow,
      childAnglesNow, get_outer_sector_from_angle, get_child_angles,
      get_sector_from_angle, Widget.inner_angles, Widget.inner_order,
      SizeCfg.outer_radius, calculate_angles, List.enum, List.enumFrom,
      List.find?, List.lookup, inArc, mod360]
    all_goals (try norm_num [mod360])
    all_goals (try simp [kidsPC])
    all_goals (try norm_num [mod360])
  · norm_num [widgetPC]

/-- Witness for C7's amended theorem at the popup: with parent `"P"` anchored
and children visible, a move to angle 250°, distance 160 (inside the band
`[155, 180]`) resolves child `"A"`, and the theorem yields the band bounds and
the window membership. -/
theorem c7_witness :
    ((widgetPC.cfg.radius + widgetPC.cfg.ring_gap ≤ 160 ∧
      (160 : ℚ) ≤ widgetPC.cfg.outer_radius) ∧
     childWindowHit widgetPC (some "P") (some kidsPC) 250 "A") := by
  have hmove : (popupMouseMove widgetPC
      ⟨some "P", none, some kidsPC, [("A", 245), ("B", 270)], some "P"⟩
      250 160).outer_active_sector = some "A" := by
    simp [popupMouseMove, widgetPC, kidsPC, pytrunc, strOrNone, truthyStr,
      truthyChildren, childrenOf, outerSectorNow, childAnglesNow,
      get_outer_sector_from_angle, get_child_angles, get_sector_from_angle,
      Widget.inner_angles, Widget.inner_order, SizeCfg.outer_radius,
      calculate_angles, List.enum, List.enumFrom, List.find?, List.lookup,
      inArc, mod360]
    all_goals (try norm_num [mod360])
    all_goals (try simp [kidsPC])
    all_goals (try norm_num [mod360])
  exact (c7_outer_hit_band widgetPC).1
    ⟨some "P", none, some kidsPC, [("A", 245), ("B", 270)], some "P"⟩
    250 160 "A" hmove

/-- Python parallel assignment `l[i], l[j] = l[j], l[i]`. -/
def pySwap {α : Type} [Inhabited α] (l : List α) (i j : ℕ) : List α :=
  (l.set i (l.getD j default)).set j (l.getD i default)

theorem length_pySwap {α : Type} [Inhabited α] (l : List α) (i j : ℕ) :
    (pySwap l i j).length = l.length := by
  simp [pySwap]

theorem pySwap_getD_other {α : Type} [Inhabited α] (l : List α) (i j k : ℕ)
    (hki : k ≠ i) (hkj : k ≠ j) :
    (pySwap l i j).getD k default = l.getD k default := by
  unfold pySwap
  rw [List.getD_eq_getElem?_getD, List.getD_eq_getElem?_getD,
    List.getElem?_set_ne (fun h => hkj h.symm),
    List.getElem?_set_ne (fun h => hki h.symm)]
  exact (List.getD_eq_getElem?_getD l k default).symm

theorem pySwap_getD_left {α : Type} [Inhabited α] (l : List α) (i j : ℕ)
    (hi : i < l.length) (hj : j < l.length) :
    (pySwap l i j).getD i default = l.getD j default := by
  unfold pySwap
  by_cases hij : i = j
  · subst hij
    rw [List.getD_eq_getElem?_getD,
      List.getElem?_set_self (by simpa using hi)]
    rfl
  · rw [List.getD_eq_getElem?_getD, List.getElem?_set_ne (fun h => hij h.symm),
      List.getElem?_set_self (by simpa using hi)]
    rfl

theorem pySwap_getD_right {α : Type} [Inhabited α] (l : List α) (i j : ℕ)
    (hj : j < l.length) :
    (pySwap l i j).getD j default = l.getD i default := by
  unfold pySwap
  rw [List.getD_eq_getElem?_getD, List.getElem?_set_self (by simpa using hj)]
  rfl

theorem mem_of_mem_pySwap {α : Type} [Inhabited α] {l : List α} {i j : ℕ}
    (hi : i < l.length) (hj : j < l.length) {e : α} (he : e ∈ pySwap l i j) :
    e ∈ l := by
  unfold pySwap at he
  rcases List.mem_or_eq_of_mem_set he with he1 | rfl
  · rcases List.mem_or_eq_of_mem_set he1 with he2 | rfl
    · exact he2
    · rw [List.getD_eq_getElem _ _ hj]
      exact List.getElem_mem _
  · rw [List.getD_eq_getElem _ _ hi]
    exact List.getElem_mem _

theorem getD_map_fst (l : List (String × InnerSec)) (k : ℕ) :
    (l.map Prod.fst).getD k default = (l.getD k default).1 := by
  rcases lt_or_le k l.length with hk | hk
  · rw [List.getD_eq_getElem _ _ (by simpa using hk), List.getD_eq_getElem _ _ hk,
      List.getElem_map]
  · rw [List.getD_eq_default _ _ (by simpa using hk), List.getD_eq_default _ _ hk]
    rfl

theorem pySwap_map_fst (l : List (String × InnerSec)) (i j : ℕ) :
    pySwap (l.map Prod.fst) i j = (pySwap l i j).map Prod.fst := by
  unfold pySwap
  rw [List.map_set, List.map_set, getD_map_fst, getD_map_fst]

theorem lookup_of_mem_nodup {β : Type} {l : List (String × β)}
    (hnd : (l.map Prod.fst).Nodup) {k : String} {v : β} (hm : (k, v) ∈ l) :
    l.lookup k = some v := by
  induction l with
  | nil => cases hm
  | cons e t ih =>
    simp only [List.map_cons, List.nodup_cons] at hnd
    rcases List.mem_cons.mp hm with rfl | hmt
    · simp [List.lookup]
    · have hne : ¬k = e.1 := by
        intro hkeq
        apply hnd.1
        rw [← hkeq]
        exact List.mem_map_of_mem Prod.fst hmt
      have hbeq : (k == e.1) = false := by
        simpa using hne
      rcases e with ⟨k', v'⟩
      simp only [List.lookup, hbeq]
      exact ih hnd.2 hmt

theorem filterMap_lookup_restore (inner : List (String × InnerSec))
    (hnd : (inner.map Prod.fst).Nodup) (L : List (String × InnerSec))
    (hL : ∀ e ∈ L, e ∈ inner) :
    (L.map Prod.fst).filterMap
      (fun k => (inner.lookup k).map (fun v => (k, v))) = L := by
  induction L with
  | nil => rfl
  | cons e t ih =>
    have hlk : inner.lookup e.1 = some e.2 :=
      lookup_of_mem_nodup hnd (by
        have := hL e (List.mem_cons_self e t)
        simpa using this)
    simp only [List.map_cons, List.filterMap_cons, hlk, Option.map_some']
    rw [ih (fun x hx => hL x (List.mem_cons_of_mem _ hx))]

/-- Embeds the inner-drag arm of `RadialMenuWidget.mouseReleaseEvent`
(radialWidget.py:791-834) restricted to its effect on the persisted
`inner_section` mapping and the widget's `inner_order`: resolve the release
target (ring hit or the drag hover fallback), swap the dragged label with the
target in the local order, persist the `inner_section` re-keyed in that order
(`(k, inner[k]) for k in inner_order if k in inner`), and reload the in-memory
order from the persisted mapping.  The source's `inner_order.index(...)`
raises on an absent label; drags only start from a resolved label, so the
`indexOf` embedding is exercised on members only. -/
def mouseRelease_innerDrag (radius : ℚ) (inner_angles : List (String × ℚ))
    (inner : List (String × InnerSec)) (inner_order : List String)
    (dragging_label : String) (drag_hover_target : Option String)
    (angle dist : ℚ) : List (String × InnerSec) × List String :=
  let target : Option String :=
    if dist ≤ radius then
      match strOrNone (get_sector_from_angle inner_angles angle) with
      | some t => some t
      | none => drag_hover_target
    else none
  match strOrNone target with
  | some t =>
    if t ≠ dragging_label then
      let i := inner_order.indexOf dragging_label
      let j := inner_order.indexOf t
      let order2 := pySwap inner_order i j
      let inner2 := order2.filterMap
        (fun k => (inner.lookup k).map (fun v => (k, v)))
      (inner2, inner2.map Prod.fst)
    else (inner, inner_order)
  | none => (inner, inner_order)

theorem get_sector_label_mem {order : List String} {angle : ℚ} {t : String}
    (h : get_sector_from_angle (calculate_angles order) angle = some t) :
    t ∈ order := by
  unfold get_sector_from_angle at h
  split at h
  · exact absurd h (by simp)
  · rcases Option.map_eq_some'.mp h with ⟨e, hfind, hfst⟩
    have hmem := List.mem_of_find?_eq_some hfind
    rcases List.getElem_of_mem hmem with ⟨k, hk, hek⟩
    have hk' : k < order.length := by
      have := length_calculate_angles order
      omega
    have hne : ¬order.isEmpty = true := by
      simp only [List.isEmpty_iff]
      intro hnil
      rw [hnil] at hk'
      simp at hk'
    have hgd := getD_calculate_angles order k hk' hne
    rw [List.getD_eq_getElem _ _ hk] at hgd
    rw [hgd] at hek
    rw [← hfst, ← hek]
    simp only
    rw [List.getD_eq_getElem _ _ hk']
    exact List.getElem_mem hk'

/-- C6: A middle-button drag of inner label `d` released inside the inner ring
over a distinct resolved target `t` persists the `inner_section` with exactly
the entries at `i = indexOf d` and `j = indexOf t` exchanged — every other
entry keeps its position and payload (a pure two-element swap, not
reinsertion) — and the reloaded in-memory `inner_order` equals the freshly
persisted key order. -/
theorem c6_inner_drag_swap (radius : ℚ) (inner : List (String × InnerSec))
    (d t : String) (hover : Option String) (angle dist : ℚ)
    (hnd : (inner.map Prod.fst).Nodup)
    (hd : d ∈ inner.map Prod.fst)
    (hdist : dist ≤ radius)
    (hres : get_sector_from_angle (calculate_angles (inner.map Prod.fst)) angle =
      some t)
    (ht : ¬t = "") (hneq : t ≠ d) :
    (mouseRelease_innerDrag radius (calculate_angles (inner.map Prod.fst)) inner
        (inner.map Prod.fst) d hover angle dist).1 =
      pySwap inner ((inner.map Prod.fst).indexOf d)
        ((inner.map Prod.fst).indexOf t) ∧
    (mouseRelease_innerDrag radius (calculate_angles (inner.map Prod.fst)) inner
        (inner.map Prod.fst) d hover angle dist).2 =
      (mouseRelease_innerDrag radius (calculate_angles (inner.map Prod.fst)) inner
        (inner.map Prod.fst) d hover angle dist).1.map Prod.fst ∧
    (mouseRelease_innerDrag radius (calculate_angles (inner.map Prod.fst)) inner
        (inner.map Prod.fst) d hover angle dist).2 =
      pySwap (inner.map Prod.fst) ((inner.map Prod.fst).indexOf d)
        ((inner.map Prod.fst).indexOf t) ∧
    (∀ k : ℕ, k ≠ (inner.map Prod.fst).indexOf d →
      k ≠ (inner.map Prod.fst).indexOf t →
      (pySwap inner ((inner.map Prod.fst).indexOf d)
        ((inner.map Prod.fst).indexOf t)).getD k default = inner.getD k default) ∧
    (pySwap inner ((inner.map Prod.fst).indexOf d)
        ((inner.map Prod.fst).indexOf t)).getD
        ((inner.map Prod.fst).indexOf d) default =
      inner.getD ((inner.map Prod.fst).indexOf t) default ∧
    (pySwap inner ((inner.map Prod.fst).indexOf d)
        ((inner.map Prod.fst).indexOf t)).getD
        ((inner.map Prod.fst).indexOf t) default =
      inner.getD ((inner.map Prod.fst).indexOf d) default ∧
    (pySwap inner ((inner.map Prod.fst).indexOf d)
        ((inner.map Prod.fst).indexOf t)).length = inner.length := by
  have htmem : t ∈ inner.map Prod.fst := get_sector_label_mem hres
  have hi : (inner.map Prod.fst).indexOf d < (inner.map Prod.fst).length :=
    List.indexOf_lt_length.mpr hd
  have hj : (inner.map Prod.fst).indexOf t < (inner.map Prod.fst).length :=
    List.indexOf_lt_length.mpr htmem
  have hi' : (inner.map Prod.fst).indexOf d < inner.length := by
    simpa using hi
  have hj' : (inner.map Prod.fst).indexOf t < inner.length := by
    simpa using hj
  have htt : truthyStr (some t) = true := by simp [truthyStr, ht]
  have heval : mouseRelease_innerDrag radius (calculate_angles (inner.map Prod.fst))
      inner (inner.map Prod.fst) d hover angle dist =
      (pySwap inner ((inner.map Prod.fst).indexOf d)
        ((inner.map Prod.fst).indexOf t),
       (pySwap inner ((inner.map Prod.fst).indexOf d)
        ((inner.map Prod.fst).indexOf t)).map Prod.fst) := by
    unfold mouseRelease_innerDrag
    rw [if_pos hdist, hres]
    unfold strOrNone
    rw [if_pos htt]
    simp only [if_pos htt]
    rw [if_pos hneq]
    have hrestore : (pySwap (inner.map Prod.fst) ((inner.map Prod.fst).indexOf d)
        ((inner.map Prod.fst).indexOf t)).filterMap
          (fun k => (inner.lookup k).map (fun v => (k, v))) =
        pySwap inner ((inner.map Prod.fst).indexOf d)
          ((inner.map Prod.fst).indexOf t) := by
      rw [pySwap_map_fst]
      exact filterMap_lookup_restore inner hnd _
        (fun e he => mem_of_mem_pySwap hi' hj' he)
    simp only [hrestore]
  refine ⟨?_, ?_, ?_, ?_, ?_, ?_, ?_⟩
  · rw [heval]
  · rw [heval]
  · rw [heval, pySwap_map_fst]
  · intro k hk1 hk2
    exact pySwap_getD_other inner _ _ k hk1 hk2
  · exact pySwap_getD_left inner _ _ hi' hj'
  · exact pySwap_getD_right inner _ _ hj'
  · exact length_pySwap inner _ _

/-- Concrete three-entry inner mapping for the C6 witness. -/
def innerABC : List (String × InnerSec) :=
  [("A", ⟨"cmdA", "descA", none⟩), ("B", ⟨"cmdB", "descB", none⟩),
   ("C", ⟨"cmdC", "descC", none⟩)]

/-- Witness for C6: dragging `"A"` and releasing over `"C"` (angle 150°,
distance 100 with radius 150) persists the order `["C", "B", "A"]` and the
reloaded in-memory order matches it. -/
theorem c6_witness :
    (mouseRelease_innerDrag 150 (calculate_angles (innerABC.map Prod.fst))
      innerABC (innerABC.map Prod.fst) "A" none 150 100).2 = ["C", "B", "A"] := by
  have h := c6_inner_drag_swap 150 innerABC "A" "C" none 150 100
    (by simp [innerABC]) (by simp [innerABC]) (by norm_num)
    (by
      norm_num [get_sector_from_angle, calculate_angles, innerABC, List.enum,
        List.enumFrom, List.find?, inArc, mod360])
    (by decide) (by decide)
  rw [h.2.2.1]
  simp [innerABC, pySwap, List.indexOf, List.findIdx, List.findIdx.go]

/-- The display metrics recomputed on resize. -/
structure DisplayMetrics where
  display_radius : ℚ
  display_hole : ℚ
  outer_radius : ℚ
deriving DecidableEq

/-- Embeds `RadialMenuWidget._recalc_display_metrics` (radialWidget.py:326-350):
pad 12, 22 px reserved for the description line; the displayed radius is the
configured radius clamped to the horizontal/vertical budgets; the hole is the
configured hole scaled by `display_radius / radius` (truncated, clamped at 0);
the outer radius rebuilds from the displayed radius. -/
def recalc_display_metrics (radius ring_gap outer_ring_width inner_hole : ℚ)
    (w h : ℚ) : DisplayMetrics :=
  let pad : ℚ := 12
  let desc_px : ℚ := 22
  let horiz_r : ℚ := max 20 ((pytrunc (w / 2) : ℤ) - pad)
  let vert_r : ℚ := max 20 ((pytrunc (h / 2) : ℤ) - pad - desc_px)
  let max_r : ℚ := min horiz_r vert_r
  let base_r : ℚ := ((pytrunc radius : ℤ) : ℚ)
  let display_radius : ℚ := min base_r max_r
  let scale : ℚ := display_radius / (if radius = 0 then 1 else radius)
  let display_hole : ℚ := max 0 ((pytrunc (inner_hole * scale) : ℤ) : ℚ)
  ⟨display_radius, display_hole, display_radius + ring_gap + outer_ring_width⟩

/-- The `_load_data` default for `inner_hole_radius`:
`max(0, int(radius * 0.35))` (radialWidget.py:68). -/
def default_inner_hole (radius : ℚ) : ℚ := max 0 ((pytrunc (radius * (35 / 100)) : ℤ) : ℚ)

/-- C8 (amended): after a resize the displayed radius is exactly
`min(configuredRadius, horizontalBudget, verticalBudget)` with the budgets as
the code computes them, and the hole is the configured hole scaled by
`displayRadius/configuredRadius` with integer truncation at both stages; in
the spec's concrete example — configured radius 150, budgets 100, default hole
`int(150*0.35) = 52` — the displayed radius is 100 and the displayed hole is
`int(52 * 100/150) = 34`, not exactly 35% of 100. -/
theorem c8_resize_rescaling :
    (∀ radius ring_gap outer_ring_width inner_hole w h : ℚ,
      (recalc_display_metrics radius ring_gap outer_ring_width inner_hole w h).display_radius =
        min ((pytrunc radius : ℤ) : ℚ)
          (min (max 20 ((pytrunc (w / 2) : ℤ) - 12))
            (max 20 ((pytrunc (h / 2) : ℤ) - 12 - 22))) ∧
      (recalc_display_metrics radius ring_gap outer_ring_width inner_hole w h).display_hole =
        max 0 ((pytrunc (inner_hole *
          ((recalc_display_metrics radius ring_gap outer_ring_width inner_hole w h).display_radius /
            (if radius = 0 then 1 else radius))) : ℤ) : ℚ) ∧
      (recalc_display_metrics radius ring_gap outer_ring_width inner_hole w h).outer_radius =
        (recalc_display_metrics radius ring_gap outer_ring_width inner_hole w h).display_radius +
          ring_gap + outer_ring_width) ∧
    (default_inner_hole 150 = 52 ∧
     recalc_display_metrics 150 5 25 (default_inner_hole 150) 224 268 =
       ⟨100, 34, 130⟩) := by
  constructor
  · intro radius ring_gap outer_ring_width inner_hole w h
    refine ⟨rfl, rfl, rfl⟩
  · constructor
    · norm_num [default_inner_hole, pytrunc]
    · norm_num [recalc_display_metrics, default_inner_hole, pytrunc]

/-- C8 (counterexample to the claim as stated): with configured radius 150 and
an available budget of 100 (widget size 224×268), the displayed radius is 100
as claimed, but the inner hole — stored as `int(150*0.35) = 52` — rescales to
`int(52 * 100/150) = 34`, not to "exactly 35% of 100 = 35". -/
theorem c8_counterexample :
    (recalc_display_metrics 150 5 25 (default_inner_hole 150) 224 268).display_radius
      = 100 ∧
    (recalc_display_metrics 150 5 25 (default_inner_hole 150) 224 268).display_hole
      = 34 ∧
    ¬(recalc_display_metrics 150 5 25 (default_inner_hole 150) 224 268).display_hole
      = 35 := by
  norm_num [recalc_display_metrics, default_inner_hole, pytrunc]

/-- A preset record: its `inner_section` tree and its colour block (colour
values embedded as strings; the numeric outline thickness is kept as its
printed literal since no claim inspects it). -/
structure Preset where
  inner_section : List (String × InnerSec)
  colour : List (String × String)
deriving DecidableEq, Inhabited

/-- The persisted store in the normal form `_load_data` guarantees:
`active_preset` plus the ordered preset mapping. -/
structure Store where
  active_preset : String
  presets : List (String × Preset)
deriving DecidableEq

/-- `_default_colour_from_data` (radialWidget.py:86-98). -/
def default_colour : List (String × String) :=
  [("inner_colour", "#454545"), ("innerHighlight_colour", "#282828"),
   ("innerLine_colour", "#1E1E1E"), ("child_colour", "#5285a6"),
   ("childLine_colour", "#1E1E1E"), ("child_text_color", "#FFFFFF"),
   ("child_textOutline_color", "#000000"), ("child_outline_thickness", "1")]

/-- Embeds `set_active_preset` (radialWidget.py:115-122): set and save when
the preset exists, otherwise warn and report failure with the store
untouched. -/
def set_active_preset (name : String) (d : Store) : Bool × Store :=
  if (d.presets.lookup name).isSome = true then
    (true, { d with active_preset := name })
  else (false, d)

/-- Embeds `create_preset` (radialWidget.py:124-154): refuse an existing name;
clone the source preset's payload when given and found, else seed defaults;
append at the end of the mapping. -/
def create_preset (name : String) (clone_from : Option String) (d : Store) :
    Bool × Store :=
  if (d.presets.lookup name).isSome = true then (false, d)
  else
    let payload : Preset :=
      match clone_from with
      | some c =>
        match d.presets.lookup c with
        | some src => src
        | none => ⟨[], default_colour⟩
      | none => ⟨[], default_colour⟩
    (true, { d with presets := d.presets ++ [(name, payload)] })

/-- Embeds `delete_preset` (radialWidget.py:157-169): refuse an unknown name
or the last remaining preset; otherwise remove the entry and, if it was the
active one, fall back to the first remaining preset. -/
def delete_preset (name : String) (d : Store) : Bool × Store :=
  if (d.presets.lookup name) = none then (false, d)
  else if d.presets.length = 1 then (false, d)
  else
    let presets2 := d.presets.eraseP (fun p => p.1 == name)
    let active2 := if d.active_preset = name then (presets2.headD ("", default)).1
                   else d.active_preset
    (true, ⟨active2, presets2⟩)

/-- Embeds `buildRadialMenu_UI._del_preset` (TDS_buildRadialMenu_UI.py:1009-
1023): the editor refuses to delete the smart presets by name and otherwise
delegates to `delete_preset`. -/
def ui_del_preset (cur : String) (d : Store) : Bool × Store :=
  if cur ∈ ["Default", "Modeling", "Rigging", "FX", "Animation"] then (false, d)
  else delete_preset cur d

/-- Embeds `RadialMenuWidget._get_preset_for_write` (radialWidget.py:1271-
1279) name resolution: the previewed preset when it exists, else the active
one (the store's normal form keeps the active preset in the mapping, so the
`setdefault` insertion branch is unreachable and the `getD default` at use
sites mirrors it). -/
def get_preset_for_write (d : Store) (preview_name : String) : String :=
  if (d.presets.lookup preview_name).isSome = true then preview_name
  else d.active_preset

/-- Embeds the store effect of `RadialMenuWidget._remove_inner`
(radialWidget.py:544-581): warn and leave the store untouched when the label
is missing; otherwise delete the entry and save. -/
def remove_inner (d : Store) (preview_name label : String) : Bool × Store :=
  let pname := get_preset_for_write d preview_name
  let preset := (d.presets.lookup pname).getD default
  if preset.inner_section.lookup label = none then (false, d)
  else
    let preset2 := { preset with
      inner_section := preset.inner_section.eraseP (fun p => p.1 == label) }
    (true, { d with
      presets := d.presets.map (fun p => if p.1 = pname then (p.1, preset2) else p) })

/-- Embeds the store effect of `RadialMenuWidget._remove_child`
(radialWidget.py:583-628): warn and leave the store untouched when the parent
or the child is missing; otherwise delete the child (dropping the `children`
key when it empties) and save. -/
def remove_child (d : Store) (preview_name parent_label child_label : String) :
    Bool × Store :=
  let pname := get_preset_for_write d preview_name
  let preset := (d.presets.lookup pname).getD default
  match preset.inner_section.lookup parent_label with
  | none => (false, d)
  | some parent =>
    let children := parent.children.getD []
    if children.lookup child_label = none then (false, d)
    else
      let children2 := children.eraseP (fun p => p.1 == child_label)
      let parent2 : InnerSec := { parent with
        children := if children2.isEmpty = true then none else some children2 }
      let preset2 := { preset with
        inner_section := preset.inner_section.map
          (fun p => if p.1 = parent_label then (p.1, parent2) else p) }
      (true, { d with
        presets := d.presets.map (fun p => if p.1 = pname then (p.1, preset2) else p) })

theorem lookup_eraseP_ne {β : Type} (l : List (String × β)) (name k : String)
    (hk : ¬k = name) :
    (l.eraseP (fun p => p.1 == name)).lookup k = l.lookup k := by
  induction l with
  | nil => rfl
  | cons e t ih =>
    rcases e with ⟨k', v'⟩
    cases hbe : (k' == name) with
    | true =>
      have hk' : k' = name := by simpa using hbe
      have hkk : (k == k') = false := by simp [hk', hk]
      simp [List.eraseP_cons, hbe, List.lookup, hkk]
    | false =>
      by_cases hke : (k == k') = true
      · simp [List.eraseP_cons, hbe, List.lookup, hke]
      · have hke' : (k == k') = false := by simpa using hke
        simp [List.eraseP_cons, hbe, List.lookup, hke', ih]

theorem exists_entry_of_lookup_isSome {β : Type} {l : List (String × β)}
    {k : String} (h : (l.lookup k).isSome = true) : ∃ v, (k, v) ∈ l := by
  induction l with
  | nil => simp [List.lookup] at h
  | cons e t ih =>
    rcases e with ⟨k', v'⟩
    by_cases hke : (k == k') = true
    · have : k = k' := by simpa using hke
      exact ⟨v', by rw [this]; exact List.mem_cons_self _ _⟩
    · simp only [List.lookup, Bool.not_eq_true] at h ⊢
      rw [Bool.not_eq_true] at hke
      rw [hke] at h
      rcases ih h with ⟨v, hv⟩
      exact ⟨v, List.mem_cons_of_mem _ hv⟩

theorem lookup_headD_isSome {β : Type} [Inhabited β] {l : List (String × β)}
    (h : l ≠ []) : (l.lookup ((l.headD default).1)).isSome = true := by
  rcases l with _ | ⟨e, t⟩
  · exact absurd rfl h
  · rcases e with ⟨k', v'⟩
    simp [List.lookup]

theorem lookup_append_of_isSome {β : Type} {l : List (String × β)}
    (m : List (String × β)) {k : String} (h : (l.lookup k).isSome = true) :
    ((l ++ m).lookup k) = l.lookup k := by
  induction l with
  | nil => simp [List.lookup] at h
  | cons e t ih =>
    rcases e with ⟨k', v'⟩
    cases hke : (k == k') with
    | true => simp [List.lookup, hke]
    | false =>
      simp only [List.cons_append, List.lookup, hke] at h ⊢
      exact ih h

/-- C9 (amended): the editor's delete action never removes `"Default"`
(guarded by name), `delete_preset` never empties the preset collection, and
the persisted `active_preset` remains a member of the collection across
`set_active_preset`, `delete_preset` and `create_preset`; however the raw
`delete_preset` itself only refuses unknown names and the last remaining
preset, so it deletes `"Default"` whenever another preset exists. -/
theorem c9_preset_invariants :
    (∀ (d : Store) (cur : String),
      ((d.presets.lookup "Default").isSome = true) →
      (((ui_del_preset cur d).2.presets.lookup "Default").isSome = true)) ∧
    (∀ (d : Store) (name : String), d.presets ≠ [] →
      (delete_preset name d).2.presets ≠ []) ∧
    (∀ (d : Store) (name : String),
      ((d.presets.lookup d.active_preset).isSome = true) →
      (((set_active_preset name d).2.presets.lookup
          (set_active_preset name d).2.active_preset).isSome = true) ∧
      (((delete_preset name d).2.presets.lookup
          (delete_preset name d).2.active_preset).isSome = true)) ∧
    (∀ (d : Store) (name : String) (clone : Option String),
      ((d.presets.lookup d.active_preset).isSome = true) →
      (((create_preset name clone d).2.presets.lookup
          (create_preset name clone d).2.active_preset).isSome = true)) ∧
    (∀ d : Store, ((d.presets.lookup "Default").isSome = true) →
      2 ≤ d.presets.length → (delete_preset "Default" d).1 = true) := by
  have hdel_len : ∀ (d : Store) (name : String),
      (d.presets.lookup name).isSome = true → 2 ≤ d.presets.length →
      (d.presets.eraseP (fun p => p.1 == name)) ≠ [] := by
    intro d name hl hlen
    rcases exists_entry_of_lookup_isSome hl with ⟨v, hv⟩
    have := List.length_eraseP_of_mem (p := fun q => q.1 == name) hv (beq_self_eq_true name)
    intro hnil
    rw [hnil] at this
    simp at this
    omega
  refine ⟨?_, ?_, ?_, ?_, ?_⟩
  · intro d cur hD
    unfold ui_del_preset
    split
    · exact hD
    · rename_i hguard
      have hcur : ¬("Default" : String) = cur := by
        intro hcon
        exact hguard (hcon ▸ (by decide :
          ("Default" : String) ∈ ["Default", "Modeling", "Rigging", "FX", "Animation"]))
      unfold delete_preset
      split
      · exact hD
      · split
        · exact hD
        · simp only
          rw [lookup_eraseP_ne _ cur "Default" hcur]
          exact hD
  · intro d name hne
    unfold delete_preset
    split
    · exact hne
    · split
      · exact hne
      · rename_i hsome hlen
        simp only
        have hl : (d.presets.lookup name).isSome = true := by
          rcases h : d.presets.lookup name with _ | v
          · exact absurd h hsome
          · rfl
        have hlen2 : 2 ≤ d.presets.length := by
          have h1 : d.presets.length ≠ 0 := by
            intro h0
            exact hne (List.length_eq_zero.mp h0)
          omega
        exact hdel_len d name hl hlen2
  · intro d name hact
    constructor
    · unfold set_active_preset
      split
      · rename_i hsome
        simpa using hsome
      · exact hact
    · unfold delete_preset
      split
      · exact hact
      · split
        · exact hact
        · rename_i hsome hlen
          have hl : (d.presets.lookup name).isSome = true := by
            rcases h : d.presets.lookup name with _ | v
            · exact absurd h hsome
            · rfl
          have hlen2 : 2 ≤ d.presets.length := by
            have h1 : d.presets.length ≠ 0 := by
              intro h0
              rw [List.length_eq_zero.mp h0] at hl
              simp [List.lookup] at hl
            omega
          simp only
          by_cases hae : d.active_preset = name
          · rw [if_pos hae]
            exact lookup_headD_isSome (hdel_len d name hl hlen2)
          · rw [if_neg hae]
            rw [lookup_eraseP_ne _ name d.active_preset hae]
            exact hact
  · intro d name clone hact
    unfold create_preset
    split
    · exact hact
    · simp only
      rw [lookup_append_of_isSome _ hact]
      exact hact
  · intro d hD hlen
    unfold delete_preset
    rw [if_neg (by
      rcases h : d.presets.lookup "Default" with _ | v
      · rw [h] at hD; simp at hD
      · simp),
      if_neg (by omega)]

/-- The concrete store used in the C9/C10 scenarios. -/
def storeC9 : Store :=
  ⟨"Default", [("Default", ⟨[], default_colour⟩), ("Extra", ⟨[], default_colour⟩)]⟩

/-- C9 (counterexample to the claim as stated): on a store holding presets
`["Default", "Extra"]`, `delete_preset "Default"` succeeds and the resulting
store no longer contains `"Default"` — the claim that deleting `"Default"`
always fails and leaves it in the store is false at the `delete_preset`
level (only the editor's name guard protects it). -/
theorem c9_counterexample :
    (delete_preset "Default" storeC9).1 = true ∧
    (delete_preset "Default" storeC9).2.presets.lookup "Default" = none := by
  decide

/-- Witness for C9's amended theorem: the editor's delete action on
`"Default"` leaves `"Default"` in `storeC9`. -/
theorem c9_witness :
    ((ui_del_preset "Default" storeC9).2.presets.lookup "Default").isSome = true :=
  c9_preset_invariants.1 storeC9 "Default" (by decide)

/-- C10: every name-referencing operation — `set_active_preset`,
`delete_preset`, the widget's remove-inner and remove-child actions — when
the referenced preset, section or child does not exist, emits its non-fatal
warning, reports failure (`false`), and leaves the persisted store exactly
unchanged (atomic on error). -/
theorem c10_missing_reference_atomic :
    (∀ (d : Store) (name : String), d.presets.lookup name = none →
      set_active_preset name d = (false, d)) ∧
    (∀ (d : Store) (name : String), d.presets.lookup name = none →
      delete_preset name d = (false, d)) ∧
    (∀ (d : Store) (pv label : String),
      ((d.presets.lookup (get_preset_for_write d pv)).getD
        default).inner_section.lookup label = none →
      remove_inner d pv label = (false, d)) ∧
    (∀ (d : Store) (pv parent child : String),
      ((d.presets.lookup (get_preset_for_write d pv)).getD
        default).inner_section.lookup parent = none →
      remove_child d pv parent child = (false, d)) ∧
    (∀ (d : Store) (pv parent child : String) (psec : InnerSec),
      ((d.presets.lookup (get_preset_for_write d pv)).getD
        default).inner_section.lookup parent = some psec →
      (psec.children.getD []).lookup child = none →
      remove_child d pv parent child = (false, d)) := by
  refine ⟨?_, ?_, ?_, ?_, ?_⟩
  · intro d name h
    unfold set_active_preset
    rw [if_neg (by rw [h]; simp)]
  · intro d name h
    unfold delete_preset
    rw [if_pos h]
  · intro d pv label h
    unfold remove_inner
    rw [if_pos h]
  · intro d pv parent child h
    unfold remove_child
    dsimp only
    rw [h]
  · intro d pv parent child psec h1 h2
    unfold remove_child
    dsimp only
    rw [h1]
    simp only [if_pos h2]

/-- Witness for C10 at `storeC9`: a missing preset name fails atomically. -/
theorem c10_witness :
    set_active_preset "Nope" storeC9 = (false, storeC9) ∧
    delete_preset "Nope" storeC9 = (false, storeC9) ∧
    remove_inner storeC9 "Default" "ghost" = (false, storeC9) := by
  refine ⟨?_, ?_, ?_⟩
  · exact c10_missing_reference_atomic.1 storeC9 "Nope" (by decide)
  · exact c10_missing_reference_atomic.2.1 storeC9 "Nope" (by decide)
  · exact c10_missing_reference_atomic.2.2.1 storeC9 "Default" "ghost" (by decide)

end TDSRadial
